import Mathlib

/-!
Verification of the trashy_rm core (src/trashy_rm.py) against its
natural-language specification.  The Python source is shallowly embedded:
pure functions become Lean functions, the mutable class attribute
`ExecConfig.targets` becomes an explicitly threaded list, exceptions become
`Except`.  The stdlib collaborators `os.path.expandvars`,
`os.path.expanduser`, `configparser` merging and `int()` are modelled from
their CPython semantics on the fragment the configuration loader exercises.
-/

set_option maxRecDepth 4096

/-- Decidable equality on `Except`, used to evaluate the embedded functions
at concrete inputs. -/
instance {ε α : Type} [DecidableEq ε] [DecidableEq α] : DecidableEq (Except ε α)
  | .error a, .error b =>
    if h : a = b then isTrue (by rw [h]) else isFalse (fun hh => h (by injection hh))
  | .error _, .ok _ => isFalse (fun hh => Except.noConfusion hh)
  | .ok _, .error _ => isFalse (fun hh => Except.noConfusion hh)
  | .ok a, .ok b =>
    if h : a = b then isTrue (by rw [h]) else isFalse (fun hh => h (by injection hh))

/-! ## Data model: enumerations and configuration records (src/trashy_rm.py) -/

/-- The `InteractiveMode` enum from src/trashy_rm.py. -/
inductive InteractiveMode
  | NEVER
  | NORMAL
  | ALWAYS
deriving DecidableEq, Repr

/-- The `TrashMode` enum from src/trashy_rm.py. -/
inductive TrashMode
  | NEVER
  | NORMAL
  | ALWAYS
deriving DecidableEq, Repr

/-- The constant `DEFAULT_CUTOFF = 3` from src/trashy_rm.py. -/
def DEFAULT_CUTOFF : Int := 3

/-- The `AppConfig` class from src/trashy_rm.py: per-instance fields built in
`__init__` (cutoff defaulting to `DEFAULT_CUTOFF`, trashy_dirs defaulting
to a fresh empty list). -/
structure AppConfig where
  cutoff : Int := DEFAULT_CUTOFF
  trashy_dirs : List String := []
deriving DecidableEq, Repr

/-- The `ExecConfig` class from src/trashy_rm.py.  In the Python source every field is
a class-level default; the booleans and enums are only ever rebound by
assignment (which shadows the class attribute per instance), but `targets`
is a class-level list that is mutated in place (`append`, `+=`) and hence
shared between instances.  This record is the per-call view; the sharing of
`targets` is made explicit in `parse_optsFrom` below. -/
structure ExecConfig where
  help : Bool := false
  get_trash : Bool := false
  version : Bool := false
  force : Bool := false
  interactive_mode : InteractiveMode := InteractiveMode.NORMAL
  handle_dirs : Bool := false
  recursive : Bool := false
  verbose : Bool := false
  trash_mode : TrashMode := TrashMode.NORMAL
  shred : Bool := false
  dry_run : Bool := false
  read_targets : Bool := false
  targets : List String := []
deriving DecidableEq, Repr

/-! ## Option parser (`parse_opts`, src/trashy_rm.py lines 142-198) -/

/-- Python `s.startswith(pre)`: comparison of the code-point sequences.
(Defined on `toList` so that the kernel can evaluate it.) -/
def strStarts (s pre : String) : Bool :=
  pre.toList.isPrefixOf s.toList

/-- Python `s[n:]`: drop the first `n` code points. -/
def strDrop (s : String) (n : Nat) : String :=
  String.mk (s.toList.drop n)

/-- The error text raised by `OptParseError(...)` in `parse_opts`. -/
def optErrMsg (o : String) : String :=
  "careful_rm: invalid option -- \x27" ++ o ++ "\x27"

/-- The effect selected by the if/elif chain over one option atom `o`
(a single short-option character, or a long option spelled `-name` after
the leading dash was stripped).  The branch conditions are transcribed in
source order. -/
inductive OptEffect
  | eForce
  | eDirs
  | eRecursive
  | eVerbose
  | eIAlways
  | eINormal
  | eINever
  | eHelp
  | eGetTrash
  | eRecycle
  | eDirect
  | eShred
  | eDryRun
  | eBad
deriving DecidableEq, Repr

/-- The if/elif chain of `parse_opts` classifying one option atom,
conditions in source order. -/
def classifyOpt (o : String) : OptEffect :=
  if o = "f" ∨ o = "-force" then .eForce
  else if o = "d" ∨ o = "-dir" then .eDirs
  else if o = "r" ∨ o = "-recursive" then .eRecursive
  else if o = "v" ∨ o = "-verbose" then .eVerbose
  else if o = "i" ∨ o = "-interactive" ∨ o = "-interactive=always" ∨ o = "-interactive=yes" then .eIAlways
  else if o = "I" ∨ o = "-interactive=once" then .eINormal
  else if o = "-interactive=never" ∨ o = "-interactive=no" ∨ o = "-interactive=none" then .eINever
  else if o = "h" ∨ o = "-help" then .eHelp
  else if o = "-get-trash" then .eGetTrash
  else if o = "c" ∨ o = "-recycle" then .eRecycle
  else if o = "-direct" then .eDirect
  else if o = "s" ∨ o = "-shred" then .eShred
  else if o = "-dryrun" then .eDryRun
  else .eBad

/-- Apply one option atom to the configuration.  The `Bool` is the
halt signal: `h`/`--help` and `--get-trash` raise `StopIteration` in the
source, ending the whole parse; an unrecognized atom raises
`OptParseError`. -/
def applyOpt (conf : ExecConfig) (o : String) : Except String (ExecConfig × Bool) :=
  match classifyOpt o with
  | .eForce => .ok ({ conf with force := true }, false)
  | .eDirs => .ok ({ conf with handle_dirs := true }, false)
  | .eRecursive => .ok ({ conf with recursive := true }, false)
  | .eVerbose => .ok ({ conf with verbose := true }, false)
  | .eIAlways => .ok ({ conf with interactive_mode := .ALWAYS }, false)
  | .eINormal => .ok ({ conf with interactive_mode := .NORMAL }, false)
  | .eINever => .ok ({ conf with interactive_mode := .NEVER }, false)
  | .eHelp => .ok ({ conf with help := true }, true)
  | .eGetTrash => .ok ({ conf with get_trash := true }, true)
  | .eRecycle => .ok ({ conf with trash_mode := .ALWAYS }, false)
  | .eDirect => .ok ({ conf with trash_mode := .NEVER }, false)
  | .eShred => .ok ({ conf with shred := true }, false)
  | .eDryRun => .ok ({ conf with dry_run := true }, false)
  | .eBad => .error (optErrMsg o)

/-- The inner `for o in ...` loop of `parse_opts` over the atoms of one
option token: left to right, stopping with the halt signal when a terminal
flag raises `StopIteration`, propagating `OptParseError`. -/
def applyOpts (conf : ExecConfig) : List String → Except String (ExecConfig × Bool)
  | [] => .ok (conf, false)
  | o :: rest =>
    match applyOpt conf o with
    | .error e => .error e
    | .ok (c, true) => .ok (c, true)
    | .ok (c, false) => applyOpts c rest

/-- Python `[opt[1:]] if opt.startswith("--") else list(opt[1:])`: the atoms of an
option token — the whole remainder (still carrying one dash) for a long
option, the individual characters for a short-option cluster. -/
def atomsOf (t : String) : List String :=
  if strStarts t "--" then [strDrop t 1]
  else (strDrop t 1).toList.map (fun c => String.mk [c])

/-- The `while True` token loop of `parse_opts`.  `"--"` drains the
iterator into `targets` (the following `next` then raises `StopIteration`,
ending the loop); `"-"` sets `read_targets`; a token not starting with a
dash is a target; otherwise the token's atoms are applied. -/
def parseLoop (conf : ExecConfig) : List String → Except String ExecConfig
  | [] => .ok conf
  | opt :: rest =>
    if opt = "--" then .ok { conf with targets := conf.targets ++ rest }
    else if opt = "-" then parseLoop { conf with read_targets := true } rest
    else if strStarts opt "-" = false then
      parseLoop { conf with targets := conf.targets ++ [opt] } rest
    else
      match applyOpts conf (atomsOf opt) with
      | .error e => .error e
      | .ok (c, true) => .ok c
      | .ok (c, false) => parseLoop c rest

/-- The function `parse_opts` as it executes in a Python process whose class attribute
`ExecConfig.targets` currently holds `classTargets`: `ExecConfig()` gives
every field its class default, so the fresh `conf` starts with that shared
list; all appends performed by the parse mutate it in place, so after a
successful call the class attribute equals the returned `targets`. -/
def parse_optsFrom (classTargets : List String) (opts : List String) : Except String ExecConfig :=
  parseLoop { targets := classTargets } opts

/-- The function `parse_opts` on the first invocation in a fresh interpreter, where the
class-level `targets` list is still `[]`. -/
def parse_opts (opts : List String) : Except String ExecConfig :=
  parse_optsFrom [] opts

-- sanity checks against the repository's own tests (tests/tests.py)
theorem parse_opts_check1 :
    parse_opts ["--recursive", "--recycle", "--interactive=always", "target1",
      "/dir/there/target2", "-vd", "-", "--", "-target3", "--help"] =
    .ok { recursive := true, trash_mode := .ALWAYS, interactive_mode := .ALWAYS,
          verbose := true, handle_dirs := true, read_targets := true,
          targets := ["target1", "/dir/there/target2", "-target3", "--help"] } := by
  decide

theorem parse_opts_check2 :
    parse_opts ["--interactive=never", "--force", "-fh-"] =
    .ok { interactive_mode := .NEVER, force := true, help := true } := by
  decide

theorem parse_opts_check3 : parse_opts ["-r-d"] = .error (optErrMsg "-") := by decide

theorem parse_opts_check4 : parse_opts ["--what", "-w"] = .error (optErrMsg "-what") := by decide

/-! ## Path expander: `os.path.expandvars` then `os.path.expanduser`
(CPython posixpath, as called on line 134 of src/trashy_rm.py) -/

/-- An `re.ASCII` word character, the `\w` of the `expandvars` pattern. -/
def wordChar (c : Char) : Bool :=
  c.isAlphanum || c = '_'

def lbr : Char := Char.ofNat 123

def rbr : Char := Char.ofNat 125

/-- Lookup in the environment mapping (models `os.environ[name]`). -/
def lookupEnv (env : List (String × String)) (k : String) : Option String :=
  (env.find? (fun p => p.1 = k)).map (fun p => p.2)

/-- Scan for the closing brace of a `$\x7b...\x7d` reference: returns the
characters before the first closing brace and the characters after it, or
`none` when no closing brace exists (then the regex alternative
`\x5c\x7b[^\x7d]*\x7d` cannot match). -/
def findCloseBrace : List Char → Option (List Char × List Char)
  | [] => none
  | c :: rest =>
    if c = rbr then some ([], rest)
    else
      match findCloseBrace rest with
      | some (nm, tail) => some (c :: nm, tail)
      | none => none

/-- One step of the scanning loop of `posixpath.expandvars`, at the head of
the remaining input: the characters this step emits and the input left to
scan.  At a dollar sign the regex tries a brace-delimited name, else a
maximal nonempty run of word characters; a name found in `env` is replaced
by its value (which is not rescanned, so the value goes to the emitted
part), an absent name is left as literal text and scanning resumes after
it, and a dollar sign followed by neither form is emitted verbatim. -/
def expandStep (env : List (String × String)) : List Char → List Char × List Char
  | [] => ([], [])
  | c :: rest =>
    if c = '$' then
      match rest with
      | [] => ([c], [])
      | d :: rest2 =>
        if d = lbr then
          match findCloseBrace rest2 with
          | some (nm, tail) =>
            ((match lookupEnv env (String.mk nm) with
              | some v => v.toList
              | none => c :: d :: (nm ++ [rbr])), tail)
          | none => ([c], rest)
        else if wordChar d then
          ((match lookupEnv env (String.mk (rest.takeWhile wordChar)) with
            | some v => v.toList
            | none => c :: rest.takeWhile wordChar), rest.dropWhile wordChar)
        else ([c], rest)
    else ([c], rest)

/-- The scanning loop of `posixpath.expandvars`: iterate `expandStep` until
the input is exhausted.  `fuel` bounds the recursion; every step consumes
at least one character, so `length + 1` fuel suffices. -/
def expandVarsFuel (env : List (String × String)) : Nat → List Char → List Char
  | 0, l => l
  | _ + 1, [] => []
  | fuel + 1, c :: rest =>
    (expandStep env (c :: rest)).1 ++ expandVarsFuel env fuel (expandStep env (c :: rest)).2

/-- CPython `posixpath.expandvars` on a character list. -/
def expandVarsL (env : List (String × String)) (l : List Char) : List Char :=
  expandVarsFuel env (l.length + 1) l

/-- Python `os.path.expandvars(path)` with environment `env`. -/
def expandvars (env : List (String × String)) (s : String) : String :=
  String.mk (expandVarsL env s.toList)

/-- The step `userhome.rstrip("/")` from `posixpath.expanduser`. -/
def rstripSlashes (s : String) : String :=
  String.mk ((s.toList.reverse.dropWhile (fun c => c = '/')).reverse)

/-- CPython `posixpath.expanduser(path)` with the home directory `home` (the value
CPython reads from `HOME`, or derives from the password database).  A path
not starting with a tilde is returned unchanged.  When the first slash is
at index 1 (or the path is exactly a tilde), the tilde is replaced by
`home` stripped of trailing slashes, an empty result becoming the root.
A `~user` form consults the password database; that external lookup is
modelled as the unknown-user case, in which CPython returns the path
unchanged. -/
def expanduser (path : String) (home : String) : String :=
  match path.toList with
  | '~' :: rest =>
    if rest.takeWhile (fun c => c ≠ '/') = [] then
      let userhome := rstripSlashes home
      let res := userhome ++ String.mk (rest.dropWhile (fun c => c ≠ '/'))
      if res = "" then "/" else res
    else path
  | _ => path

/-- The expansion applied to each configured trash path on line 134 of
src/trashy_rm.py: `os.path.expanduser(os.path.expandvars(path))`. -/
def expandPath (raw : String) (env : List (String × String)) (home : String) : String :=
  expanduser (expandvars env raw) home

-- sanity checks mirroring tests/tests.py test_load_config
theorem expandPath_check1 : expandPath "$UNSET/tmp/stuff" [] "/h" = "$UNSET/tmp/stuff" := by decide

theorem expandPath_check2 :
    expandPath "$MY_DIR/directory" [("MY_DIR", "/tmp/trashy/test")] "/h" =
      "/tmp/trashy/test/directory" := by
  decide

theorem expandPath_check3 : expandPath "~" [("PWD", "/p")] "/tmp/trashy/my$PWD" = "/tmp/trashy/my$PWD" := by
  decide

theorem expandPath_check4 :
    expandPath (String.mk ('$' :: lbr :: "SPACES_DIR".toList ++ rbr :: "-here/dir".toList))
      [("SPACES_DIR", "/tmp/trashy/spa ces")] "/h" = "/tmp/trashy/spa ces-here/dir" := by
  decide

/-! ## Config merger (`load_app_config`, src/trashy_rm.py lines 125-135).
`configparser` is an external collaborator; the embedded fragment follows
its CPython behaviour on already-tokenized data: one shared parser state
into which successive `read` calls merge (later files overriding the
value of an existing key in place and appending new keys and sections,
order preserved), a separate `[DEFAULT]` section whose options serve as
fallback for every other section, and `BasicInterpolation` applied by
`items` and `getint` (a `%%` collapsing to `%`, a `%(name)s` reference
substituted recursively up to depth 10, any other `%` an
`InterpolationSyntaxError`).  Option keys are modelled post-`optionxform`
(lowercased); interpolation reference names are lowercased with the ASCII
`toLower`. -/

/-- Sections in order, each holding its key/value pairs in order (keys
already lowercased by `optionxform`). -/
abbrev Sections := List (String × List (String × String))

/-- Python dict assignment `d[k] = v` on an ordered dict: override in
place or append. -/
def setKey : List (String × String) → String → String → List (String × String)
  | [], k, v => [(k, v)]
  | (k0, v0) :: rest, k, v =>
    if k0 = k then (k0, v) :: rest else (k0, v0) :: setKey rest k v

/-- Python dict lookup `d.get(k)` on an ordered dict. -/
def lookupKey : List (String × String) → String → Option String
  | [], _ => none
  | kv :: rest, k => if kv.1 = k then some kv.2 else lookupKey rest k

/-- The shared `ConfigParser` state: the `[DEFAULT]` option dict and the
ordered regular sections. -/
structure ParserState where
  defaults : List (String × String) := []
  sections : Sections := []
deriving DecidableEq, Repr

/-- Merge one section of a newly read file into the regular sections:
`_read` assigns the options one at a time into the existing or fresh
section dict. -/
def mergeSection : Sections → String → List (String × String) → Sections
  | [], name, kvs => [(name, kvs.foldl (fun a kv => setKey a kv.1 kv.2) [])]
  | (n0, kvs0) :: rest, name, kvs =>
    if n0 = name then
      (n0, kvs.foldl (fun a kv => setKey a kv.1 kv.2) kvs0) :: rest
    else (n0, kvs0) :: mergeSection rest name kvs

/-- Merge one section of a newly read file into the parser state: a
section named `DEFAULT` goes to the defaults dict, every other section to
the regular sections. -/
def mergeInto (st : ParserState) (s : String × List (String × String)) : ParserState :=
  if s.1 = "DEFAULT" then
    { st with defaults := s.2.foldl (fun a kv => setKey a kv.1 kv.2) st.defaults }
  else { st with sections := mergeSection st.sections s.1 s.2 }

/-- A configuration file as `ConfigParser.read` sees it: absent from the
filesystem, present but not parseable (ini syntax error), or parsed into
sections. -/
inductive ConfFile
  | missing
  | malformed
  | parsed (sections : Sections)
deriving DecidableEq, Repr

/-- One `parser.read(file_name)` call: a missing file is silently skipped,
a malformed file raises `configparser.Error`, a parsed file is merged
section by section into the parser state. -/
def readConfFile (st : ParserState) : ConfFile → Except String ParserState
  | .missing => .ok st
  | .malformed => .error "configparser.Error"
  | .parsed secs => .ok (secs.foldl mergeInto st)

/-- The `for file_name in file_names: parser.read(file_name)` loop of
`load_app_config`: every file is read into the one shared parser state, an
error propagating out. -/
def readFiles : ParserState → List ConfFile → Except String ParserState
  | st, [] => .ok st
  | st, f :: rest =>
    match readConfFile st f with
    | .error e => .error e
    | .ok st2 => readFiles st2 rest

/-- The stored option dict of one section (empty when absent). -/
def sectKvs : Sections → String → List (String × String)
  | [], _ => []
  | s :: rest, n => if s.1 = n then s.2 else sectKvs rest n

/-- Membership test of `parser.has_section` (which excludes `DEFAULT`
because the defaults are held apart from the regular sections). -/
def hasSect : Sections → String → Bool
  | [], _ => false
  | s :: rest, n => s.1 == n || hasSect rest n

/-- The option dict a section lookup sees, defaults included:
`d = self._defaults.copy(); d.update(self._sections[section])`. -/
def sectionMap (st : ParserState) (n : String) : List (String × String) :=
  (sectKvs st.sections n).foldl (fun a kv => setKey a kv.1 kv.2) st.defaults

/-- Lowercase of an interpolation reference name (`optionxform`), on the
ASCII fragment the configuration exercises. -/
def strLower (s : String) : String :=
  String.mk (s.toList.map Char.toLower)

/-- Scan for the closing parenthesis of a `%(name)s` reference: the
characters before the first closing parenthesis and the characters after
it, or `none` when there is no closing parenthesis. -/
def findCloseParen : List Char → Option (List Char × List Char)
  | [] => none
  | c :: rest =>
    if c = ')' then some ([], rest)
    else
      match findCloseParen rest with
      | some (nm, tail) => some (c :: nm, tail)
      | none => none

/-- The outcome of one iteration of the `_interpolate_some` loop of
`BasicInterpolation`: emit some output characters and continue scanning,
recursively interpolate a substituted value that itself contains `%`, or
raise. -/
inductive InterpAction
  | emit (out : List Char) (rest : List Char)
  | subst (v : List Char) (rest : List Char)
  | fail (e : String)

/-- One iteration of the `_interpolate_some` loop: plain text up to the
next `%` sign is emitted; at a `%` sign, `%%` emits `%`, a `%(name)s`
reference (nonempty name free of closing parentheses, per the pattern
`%\(([^)]+)\)s`) is looked up with its name lowercased — a value without
`%` is emitted, a value with `%` is recursively interpolated, an absent
name raises `InterpolationMissingOptionError` — and any other `%` raises
`InterpolationSyntaxError`. -/
def interpStep (map : List (String × String)) : List Char → InterpAction
  | [] => .emit [] []
  | c :: rest =>
    if c = '%' then
      match rest with
      | [] => .fail "InterpolationSyntaxError"
      | d :: rest2 =>
        if d = '%' then .emit ['%'] rest2
        else if d = '(' then
          match findCloseParen rest2 with
          | some (nm, tail) =>
            if nm = [] then .fail "InterpolationSyntaxError"
            else
              match tail with
              | 's' :: rest3 =>
                match lookupKey map (strLower (String.mk nm)) with
                | some v =>
                  if '%' ∈ v.toList then .subst v.toList rest3
                  else .emit v.toList rest3
                | none => .fail "InterpolationMissingOptionError"
              | _ => .fail "InterpolationSyntaxError"
          | none => .fail "InterpolationSyntaxError"
        else .fail "InterpolationSyntaxError"
    else
      .emit ((c :: rest).takeWhile (fun x => x ≠ '%'))
        ((c :: rest).dropWhile (fun x => x ≠ '%'))

/-- The `_interpolate_some` scan of one value at one depth, `recurse`
interpolating a substituted value at the next depth.  `fuel` bounds the
scan; every step consumes at least one character, so the `length + 1`
fuel this is always called with never runs out and the fuel-exhausted
branch is unreachable. -/
def interpScanFuel (map : List (String × String))
    (recurse : List Char → Except String (List Char)) :
    Nat → List Char → Except String (List Char)
  | _, [] => .ok []
  | 0, l => .ok l
  | fuel + 1, c :: rest =>
    match interpStep map (c :: rest) with
    | .fail e => .error e
    | .emit out rest2 =>
      match interpScanFuel map recurse fuel rest2 with
      | .error e => .error e
      | .ok tail => .ok (out ++ tail)
    | .subst v rest2 =>
      match recurse v with
      | .error e => .error e
      | .ok sub =>
        match interpScanFuel map recurse fuel rest2 with
        | .error e => .error e
        | .ok tail => .ok (sub ++ tail)

/-- `_interpolate_some` with the remaining allowed recursion depth:
CPython enters at depth 1 and raises `InterpolationDepthError` when the
depth exceeds `MAX_INTERPOLATION_DEPTH = 10`, so the top-level budget is
10 and a zero budget means the entry itself raises. -/
def interpDepth (map : List (String × String)) : Nat → List Char → Except String (List Char)
  | 0, _ => .error "InterpolationDepthError"
  | db + 1, l => interpScanFuel map (interpDepth map db) (l.length + 1) l

/-- `BasicInterpolation.before_get` on one stored value. -/
def interpolateValue (map : List (String × String)) (v : String) : Except String String :=
  match interpDepth map 10 v.toList with
  | .error e => .error e
  | .ok l => .ok (String.mk l)

/-- Interpolate every value of the merged option dict, as
`parser.items(section)` does before returning its pairs. -/
def interpItems (d : List (String × String)) :
    List (String × String) → Except String (List (String × String))
  | [] => .ok []
  | kv :: rest =>
    match interpolateValue d kv.2 with
    | .error e => .error e
    | .ok v =>
      match interpItems d rest with
      | .error e => .error e
      | .ok tail => .ok ((kv.1, v) :: tail)

/-- Python `int(s)` on the decimal fragment the configuration exercises:
surrounding spaces stripped, optional sign, nonempty digit run; anything
else raises `ValueError` (`none`). -/
def pyInt (s : String) : Option Int :=
  let l := s.toList.dropWhile (fun c => c = ' ')
  let l := (l.reverse.dropWhile (fun c => c = ' ')).reverse
  let digits : List Char → Option Int := fun ds =>
    if ds ≠ [] ∧ ds.all Char.isDigit then
      some (Int.ofNat (ds.foldl (fun n c => 10 * n + (c.toNat - 48)) 0))
    else none
  match l with
  | '-' :: ds => (digits ds).map (fun n => -n)
  | '+' :: ds => digits ds
  | ds => digits ds

/-- The raw cutoff value `get` sees: the `prompt` section chained with the
defaults (`_unify_values`). -/
def cutoffRaw (st : ParserState) : Option String :=
  match lookupKey (sectKvs st.sections "prompt") "cutoff" with
  | some v => some v
  | none => lookupKey st.defaults "cutoff"

/-- `parser.getint("prompt", "cutoff", fallback=None)`: the fallback when
the section is missing or the option is in neither the section nor the
defaults; otherwise the stored value is interpolated and converted with
`int`, both errors propagating. -/
def getCutoff (st : ParserState) : Except String (Option Int) :=
  if hasSect st.sections "prompt" then
    match cutoffRaw st with
    | none => .ok none
    | some raw =>
      match interpolateValue (sectionMap st "prompt") raw with
      | .error e => .error e
      | .ok s =>
        match pyInt s with
        | some n => .ok (some n)
        | none => .error "ValueError"
  else .ok none

/-- The function `load_app_config(file_names)` from src/trashy_rm.py: one
shared `ConfigParser` reads every file in order; then
`parser.getint("prompt", "cutoff", fallback=None)` runs (errors
propagating); then, when a `trash_path` section exists, every pair of
`parser.items("trash_path")` — the defaults dict updated with the
section, values interpolated — contributes its expanded value.  `env` and
`home` model `os.environ` and the home directory used by the expansion. -/
def load_app_config (files : List ConfFile) (env : List (String × String))
    (home : String) : Except String AppConfig :=
  match readFiles {} files with
  | .error e => .error e
  | .ok st =>
    match getCutoff st with
    | .error e => .error e
    | .ok copt =>
      let conf : AppConfig :=
        match copt with
        | none => {}
        | some n => { cutoff := n }
      if hasSect st.sections "trash_path" then
        match interpItems (sectionMap st "trash_path") (sectionMap st "trash_path") with
        | .error e => .error e
        | .ok items =>
          .ok { conf with
                trashy_dirs := conf.trashy_dirs ++
                  items.map (fun kv => expandPath kv.2 env home) }
      else .ok conf
-- sanity check mirroring tests/tests.py test_load_config
theorem load_app_config_check :
    load_app_config
      [ConfFile.parsed [("prompt", [("cutoff", "9")]),
         ("trash_path", [("home", "/dev/null"), ("unset", "$UNSET/tmp/stuff")])],
       ConfFile.parsed [("trash_path",
         [("home", "~"), ("lovelydir", "$MY_DIR/directory")])],
       ConfFile.parsed [("prompt", [("cutoff", "5")])],
       ConfFile.parsed []]
      [("HOME", "/tmp/trashy/my$PWD"), ("MY_DIR", "/tmp/trashy/test")]
      "/tmp/trashy/my$PWD" =
    .ok { cutoff := 5,
          trashy_dirs := ["/tmp/trashy/my$PWD", "$UNSET/tmp/stuff",
                          "/tmp/trashy/test/directory"] } := by
  decide

/-! ## Runner (`run`, src/trashy_rm.py lines 252-259) -/

/-- The module docstring of src/trashy_rm.py (`__doc__`), written verbatim
to the output stream on `--help`.  Only its identity matters to the
embedded `run`, so the constant abbreviates the text to its opening
lines. -/
def moduleDoc : String :=
  "\nUsage: trashy_rm [OPTION].. [FILE]...\n\nInteractive file remover for safe deletion and recycling\n"

/-- The observable outcome of `run`: its return value and what it wrote to
the output and error streams (both initially empty). -/
structure RunResult where
  exitCode : Int
  outText : String
  errText : String
deriving DecidableEq, Repr

/-- The function `run(sys_info, conf, opts, inp, out, err)` from src/trashy_rm.py: on
`opts.help` it writes the module docstring to `out` and returns 0; every
other path raises `NotImplementedError`. -/
def run (_conf : AppConfig) (opts : ExecConfig) : Except String RunResult :=
  if opts.help then .ok { exitCode := 0, outText := moduleDoc, errText := "" }
  else .error "NotImplementedError"

/-! ## Routing engine (spec §4.4).  `run` raises `NotImplementedError` for
every non-help request, so the per-target decision procedure exists in this
repository only as the specification text. -/

/-- The `RoutingDecision` type per spec §3. -/
inductive RoutingDecision
  | Rm
  | Trash
  | Shred
  | Skip
  | Reject
  | PendingConfirmation
deriving DecidableEq, Repr

/-- Modelled from the spec: step 3 of the per-target decision algorithm of
the Routing Engine (spec §4.4), which src/trashy_rm.py leaves
unimplemented (`run` raises `NotImplementedError`): the `shred` flag
forces `Shred` with highest precedence; else `trashMode == Always`, or
`trashMode == Normal` together with the filesystem fact `underTrash`
(the target's resolved absolute path is under one of
`policy.trashDirectories`), chooses `Trash`; else `Rm`. -/
def candidateAction (opts : ExecConfig) (underTrash : Bool) : RoutingDecision :=
  if opts.shred then .Shred
  else if opts.trash_mode = TrashMode.ALWAYS ∨
      (opts.trash_mode = TrashMode.NORMAL ∧ underTrash = true) then .Trash
  else .Rm

/-! ## Token classification used to state the parser claims -/

/-- An option atom that neither fails nor halts: every atom other than
`h`, `--help`, `--get-trash` and the unrecognized ones. -/
def benignAtom (o : String) : Bool :=
  match classifyOpt o with
  | .eHelp => false
  | .eGetTrash => false
  | .eBad => false
  | _ => true

/-- A token whose processing neither fails nor halts the parse: the bare
dash, a target token, or an option token all of whose atoms are benign.
(The `"--"` token is handled separately by the claims.) -/
def benignTok (t : String) : Bool :=
  t == "-" || !(strStarts t "-") || (atomsOf t).all benignAtom

/-- Whether processing these atoms left to right reaches a terminal flag
(`h`, `--help` or `--get-trash`) before any unrecognized atom. -/
def findHaltB : List String → Bool
  | [] => false
  | a :: as =>
    match classifyOpt a with
    | .eHelp => true
    | .eGetTrash => true
    | .eBad => false
    | _ => findHaltB as

/-- An option token that halts the parse: processing its atoms reaches a
terminal flag. -/
def haltTok (t : String) : Bool :=
  strStarts t "-" && !(t == "--") && !(t == "-") && findHaltB (atomsOf t)

/-- The first unrecognized atom reached when processing these atoms left to
right (none if a terminal flag is reached first). -/
def findBadAtom : List String → Option String
  | [] => none
  | a :: as =>
    match classifyOpt a with
    | .eBad => some a
    | .eHelp => none
    | .eGetTrash => none
    | _ => findBadAtom as

/-- The targets list claim C1 predicts, transcribed from the spec words:
every non-option token before the first `"--"` token, in order, followed
by every token after the `"--"`, verbatim. -/
def claimTargets (opts : List String) : List String :=
  (opts.takeWhile (fun t => t != "--")).filter (fun t => !(strStarts t "-")) ++
    ((opts.dropWhile (fun t => t != "--")).drop 1)

/-! ## Parser lemmas -/

theorem applyOpt_benign (conf : ExecConfig) (o : String) (h : benignAtom o = true) :
    ∃ c, applyOpt conf o = .ok (c, false) ∧ c.targets = conf.targets ∧
      c.help = conf.help ∧ c.get_trash = conf.get_trash := by
  unfold benignAtom at h
  cases hc : classifyOpt o <;> rw [hc] at h <;> simp at h
  case eForce =>
    exact ⟨{ conf with force := true }, by simp [applyOpt, hc], rfl, rfl, rfl⟩
  case eDirs =>
    exact ⟨{ conf with handle_dirs := true }, by simp [applyOpt, hc], rfl, rfl, rfl⟩
  case eRecursive =>
    exact ⟨{ conf with recursive := true }, by simp [applyOpt, hc], rfl, rfl, rfl⟩
  case eVerbose =>
    exact ⟨{ conf with verbose := true }, by simp [applyOpt, hc], rfl, rfl, rfl⟩
  case eIAlways =>
    exact ⟨{ conf with interactive_mode := .ALWAYS }, by simp [applyOpt, hc], rfl, rfl, rfl⟩
  case eINormal =>
    exact ⟨{ conf with interactive_mode := .NORMAL }, by simp [applyOpt, hc], rfl, rfl, rfl⟩
  case eINever =>
    exact ⟨{ conf with interactive_mode := .NEVER }, by simp [applyOpt, hc], rfl, rfl, rfl⟩
  case eRecycle =>
    exact ⟨{ conf with trash_mode := .ALWAYS }, by simp [applyOpt, hc], rfl, rfl, rfl⟩
  case eDirect =>
    exact ⟨{ conf with trash_mode := .NEVER }, by simp [applyOpt, hc], rfl, rfl, rfl⟩
  case eShred =>
    exact ⟨{ conf with shred := true }, by simp [applyOpt, hc], rfl, rfl, rfl⟩
  case eDryRun =>
    exact ⟨{ conf with dry_run := true }, by simp [applyOpt, hc], rfl, rfl, rfl⟩

theorem applyOpts_benign :
    ∀ (atoms : List String) (conf : ExecConfig), atoms.all benignAtom = true →
    ∃ c, applyOpts conf atoms = .ok (c, false) ∧ c.targets = conf.targets ∧
      c.help = conf.help ∧ c.get_trash = conf.get_trash := by
  intro atoms
  induction atoms with
  | nil => exact fun conf _ => ⟨conf, rfl, rfl, rfl, rfl⟩
  | cons a as ih =>
    intro conf h
    rw [List.all_cons, Bool.and_eq_true] at h
    obtain ⟨c1, h1, ht1, hh1, hg1⟩ := applyOpt_benign conf a h.1
    obtain ⟨c2, h2, ht2, hh2, hg2⟩ := ih c1 h.2
    exact ⟨c2, by simp [applyOpts, h1, h2], by rw [ht2, ht1], by rw [hh2, hh1],
      by rw [hg2, hg1]⟩

theorem parseLoop_step (conf : ExecConfig) (t : String) (rest : List String)
    (hne : t ≠ "--") (hb : benignTok t = true) :
    ∃ conf', parseLoop conf (t :: rest) = parseLoop conf' rest ∧
      conf'.targets = conf.targets ++ (if strStarts t "-" then [] else [t]) := by
  by_cases h1 : t = "-"
  · subst h1
    refine ⟨{ conf with read_targets := true }, by simp [parseLoop], ?_⟩
    have hs : strStarts "-" "-" = true := by decide
    simp [hs]
  · by_cases h2 : strStarts t "-" = true
    · have hatoms : (atomsOf t).all benignAtom = true := by
        simpa [benignTok, h1, h2] using hb
      obtain ⟨c, hc, ht, _, _⟩ := applyOpts_benign (atomsOf t) conf hatoms
      refine ⟨c, ?_, ?_⟩
      · simp [parseLoop, hne, h1, h2, hc]
      · simp [h2, ht]
    · simp only [Bool.not_eq_true] at h2
      refine ⟨{ conf with targets := conf.targets ++ [t] }, ?_, ?_⟩
      · simp [parseLoop, hne, h1, h2]
      · simp [h2]

theorem parseLoop_benignList :
    ∀ (pre : List String) (conf : ExecConfig) (suffix : List String),
    (∀ t ∈ pre, t ≠ "--" ∧ benignTok t = true) →
    ∃ conf', parseLoop conf (pre ++ suffix) = parseLoop conf' suffix ∧
      conf'.targets = conf.targets ++ pre.filter (fun t => !(strStarts t "-")) := by
  intro pre
  induction pre with
  | nil => exact fun conf suffix _ => ⟨conf, rfl, by simp⟩
  | cons t ts ih =>
    intro conf suffix h
    obtain ⟨conf1, h1, ht1⟩ :=
      parseLoop_step conf t (ts ++ suffix) (h t (by simp)).1 (h t (by simp)).2
    obtain ⟨conf2, h2, ht2⟩ := ih conf1 suffix (fun u hu => h u (by simp [hu]))
    refine ⟨conf2, by rw [List.cons_append, h1, h2], ?_⟩
    rw [ht2, ht1, List.filter_cons]
    by_cases hs : strStarts t "-" = true
    · simp [hs]
    · simp only [Bool.not_eq_true] at hs
      simp [hs]

theorem dropWhile_head_false {α : Type} (p : α → Bool) :
    ∀ (l : List α) (x : α) (xs : List α), l.dropWhile p = x :: xs → p x = false := by
  intro l
  induction l with
  | nil => intro x xs h; simp [List.dropWhile] at h
  | cons a t ih =>
    intro x xs h
    rw [List.dropWhile_cons] at h
    by_cases hp : p a = true
    · rw [if_pos hp] at h; exact ih x xs h
    · rw [if_neg hp] at h
      cases h
      simpa using hp

theorem applyOpts_halt :
    ∀ (atoms : List String), findHaltB atoms = true → ∀ conf : ExecConfig,
    ∃ c, applyOpts conf atoms = .ok (c, true) ∧ c.targets = conf.targets ∧
      (c.help = true ∨ c.get_trash = true) := by
  intro atoms
  induction atoms with
  | nil => intro h; simp [findHaltB] at h
  | cons a as ih =>
    intro h conf
    cases hc : classifyOpt a
    case eHelp =>
      exact ⟨{ conf with help := true }, by simp [applyOpts, applyOpt, hc], rfl, Or.inl rfl⟩
    case eGetTrash =>
      exact ⟨{ conf with get_trash := true }, by simp [applyOpts, applyOpt, hc], rfl,
        Or.inr rfl⟩
    case eBad => simp [findHaltB, hc] at h
    all_goals {
      have hh : findHaltB as = true := by simpa [findHaltB, hc] using h
      have hbenign : benignAtom a = true := by simp [benignAtom, hc]
      obtain ⟨c1, h1, ht1, hh1, hg1⟩ := applyOpt_benign conf a hbenign
      obtain ⟨c2, h2, ht2, hflag⟩ := ih hh c1
      exact ⟨c2, by simp [applyOpts, h1, h2], by rw [ht2, ht1], hflag⟩
    }

theorem applyOpts_bad :
    ∀ (atoms : List String) (a : String), findBadAtom atoms = some a →
    ∀ conf : ExecConfig, applyOpts conf atoms = .error (optErrMsg a) := by
  intro atoms
  induction atoms with
  | nil => intro a h; simp [findBadAtom] at h
  | cons x xs ih =>
    intro a h conf
    cases hc : classifyOpt x
    case eBad =>
      have hxa : x = a := by simpa [findBadAtom, hc] using h
      subst hxa
      simp [applyOpts, applyOpt, hc]
    case eHelp => simp [findBadAtom, hc] at h
    case eGetTrash => simp [findBadAtom, hc] at h
    all_goals {
      have hh : findBadAtom xs = some a := by simpa [findBadAtom, hc] using h
      have hbenign : benignAtom x = true := by simp [benignAtom, hc]
      obtain ⟨c1, h1, ht1, hh1, hg1⟩ := applyOpt_benign conf x hbenign
      simp [applyOpts, h1, ih a hh c1]
    }

/-! ## Claim theorems: option parser -/

/-- Claim C1, as stated, is false on the code: the stream
`["-h", "--", "x"]` contains no unrecognized option and `parse_opts`
succeeds on it, but the terminal `h` flag halts parsing before the
`"--"` is reached, so the resulting targets list is empty rather than the
`["x"]` the claim requires. -/
theorem C1_counterexample :
    parse_opts ["-h", "--", "x"] = .ok { help := true } ∧
      ({ help := true } : ExecConfig).targets = [] ∧
      claimTargets ["-h", "--", "x"] = ["x"] := by
  decide

/-- Claim C1 (amended): for every token stream in which every token before
the first `"--"` is benign (not an unrecognized option and not a terminal
`help`/`get-trash` option), `parse_opts` succeeds and the resulting
targets list equals, in order, every non-option token before the first
`"--"` followed by every token after it taken verbatim. -/
theorem C1_targets (opts : List String)
    (h : ∀ t ∈ opts.takeWhile (fun t => t != "--"), benignTok t = true) :
    ∃ c, parse_opts opts = .ok c ∧ c.targets = claimTargets opts := by
  obtain ⟨conf1, h1, ht1⟩ := parseLoop_benignList (opts.takeWhile (fun t => t != "--"))
    { targets := [] } (opts.dropWhile (fun t => t != "--"))
    (fun t ht => ⟨by simpa using List.mem_takeWhile_imp ht, h t ht⟩)
  have hsplit : opts.takeWhile (fun t => t != "--") ++
      opts.dropWhile (fun t => t != "--") = opts :=
    List.takeWhile_append_dropWhile _ opts
  rw [hsplit] at h1
  cases hd : opts.dropWhile (fun t => t != "--") with
  | nil =>
    rw [hd] at h1
    refine ⟨conf1, h1, ?_⟩
    simp [claimTargets, hd, ht1]
  | cons x xs =>
    rw [hd] at h1
    have hx : x = "--" := by
      have := dropWhile_head_false (fun t => t != "--") opts x xs hd
      simpa using this
    subst hx
    refine ⟨{ conf1 with targets := conf1.targets ++ xs }, ?_, ?_⟩
    · show parseLoop { targets := [] } opts = _
      rw [h1]
      simp [parseLoop]
    · simp [claimTargets, hd, ht1]

/-- Witness for C1 at the spec's own example stream. -/
theorem C1_witness :
    (∀ t ∈ (["--recursive", "--recycle", "--interactive=always", "target1",
        "/dir/there/target2", "-vd", "-", "--", "-target3", "--help"] :
        List String).takeWhile (fun t => t != "--"), benignTok t = true) ∧
    ∃ c, parse_opts ["--recursive", "--recycle", "--interactive=always", "target1",
        "/dir/there/target2", "-vd", "-", "--", "-target3", "--help"] = .ok c ∧
      c.targets = claimTargets ["--recursive", "--recycle", "--interactive=always",
        "target1", "/dir/there/target2", "-vd", "-", "--", "-target3", "--help"] :=
  ⟨by decide, C1_targets _ (by decide)⟩

/-- Claim C4: `parse_opts ["-fh-"]` yields force and help with the trailing
dash never interpreted; and in general a token whose atoms reach a
terminal `help`/`get-trash` flag halts parsing immediately — the result
does not depend on the remaining tokens, previously accumulated targets
are retained, and the terminal flag is set. -/
theorem C4_terminal_flags :
    parse_opts ["-fh-"] = .ok { force := true, help := true } ∧
    ∀ (t : String) (conf : ExecConfig), haltTok t = true →
      ∃ c, (∀ rest, parseLoop conf (t :: rest) = .ok c) ∧
        c.targets = conf.targets ∧ (c.help = true ∨ c.get_trash = true) := by
  refine ⟨by decide, ?_⟩
  intro t conf h
  simp only [haltTok, Bool.and_eq_true, Bool.not_eq_true'] at h
  obtain ⟨⟨⟨hs, hne2⟩, hne1⟩, hfind⟩ := h
  have hne2' : t ≠ "--" := by simpa using hne2
  have hne1' : t ≠ "-" := by simpa using hne1
  obtain ⟨c, hc, ht, hflag⟩ := applyOpts_halt (atomsOf t) hfind conf
  refine ⟨c, ?_, ht, hflag⟩
  intro rest
  simp [parseLoop, hne2', hne1', hs, hc]

/-- Witness for C4's general halting part at the token `"-fh-"`. -/
theorem C4_witness :
    haltTok "-fh-" = true ∧
    ∃ c, (∀ rest, parseLoop ({} : ExecConfig) ("-fh-" :: rest) = .ok c) ∧
      c.targets = ({} : ExecConfig).targets ∧ (c.help = true ∨ c.get_trash = true) :=
  ⟨by decide, C4_terminal_flags.2 "-fh-" {} (by decide)⟩

/-- Claim C6, as stated, is false on the code: the stream `["-h", "-w"]`
contains the unrecognized option `-w` preceded only by the valid token
`-h`, yet `parse_opts` succeeds, because the terminal `h` flag stops
parsing before the invalid option is reached. -/
theorem C6_counterexample :
    parse_opts ["-h", "-w"] = .ok { help := true } := by
  decide

/-- Claim C6 (amended): for every stream in which an option token carrying
an unrecognized atom is preceded only by benign tokens (no terminal
`help`/`get-trash` option and no `"--"` before it), `parse_opts` fails,
whatever the following tokens are, with the parse error naming the first
offending atom in the literal form `invalid option -- ...`, and no
`ExecConfig` is returned. -/
theorem C6_invalid_option (pre : List String) (t : String) (post : List String)
    (a : String)
    (hpre : ∀ u ∈ pre, u ≠ "--" ∧ benignTok u = true)
    (hs : strStarts t "-" = true) (h2 : t ≠ "--") (h3 : t ≠ "-")
    (hbad : findBadAtom (atomsOf t) = some a) :
    parse_opts (pre ++ t :: post) = .error (optErrMsg a) := by
  obtain ⟨conf1, h1, _⟩ := parseLoop_benignList pre { targets := [] } (t :: post) hpre
  show parseLoop { targets := [] } (pre ++ t :: post) = _
  rw [h1]
  simp [parseLoop, h2, h3, hs, applyOpts_bad (atomsOf t) a hbad conf1]

/-- Witness for C6 at an unrecognized `--interactive=` value surrounded by
valid tokens. -/
theorem C6_witness :
    (∀ u ∈ (["--force", "-v"] : List String), u ≠ "--" ∧ benignTok u = true) ∧
    strStarts "--interactive=squirrels" "-" = true ∧
    findBadAtom (atomsOf "--interactive=squirrels") = some "-interactive=squirrels" ∧
    parse_opts (["--force", "-v"] ++ "--interactive=squirrels" :: ["x"]) =
      .error (optErrMsg "-interactive=squirrels") :=
  ⟨by decide, by decide, by decide,
    C6_invalid_option ["--force", "-v"] "--interactive=squirrels" ["x"]
      "-interactive=squirrels" (by decide) (by decide) (by decide) (by decide)
      (by decide)⟩

/-- Claim C8 is right and the code is wrong: `ExecConfig.targets` is a
class-level list in the Python source, mutated in place by every parse, so
two successive calls of `parse_opts` on the same token list in one
interpreter do not produce identical results.  The first call (class list
still empty) yields targets `["a"]` and leaves the class list equal to
`["a"]`; the second call then yields targets `["a", "a"]`. -/
theorem C8_shared_state :
    parse_optsFrom [] ["a"] = .ok { targets := ["a"] } ∧
    parse_optsFrom ["a"] ["a"] = .ok { targets := ["a", "a"] } := by
  decide

/-- Claim C2: the candidate action of the routing engine — `shred` forces
`Shred` regardless of the trash mode; otherwise trash mode `Always`, or
`Normal` with the target under a configured trash directory, gives
`Trash`; otherwise (in particular whenever the trash mode is `Never`) the
decision is `Rm`. -/
theorem C2_routing (opts : ExecConfig) (under : Bool) :
    (opts.shred = true → candidateAction opts under = .Shred) ∧
    (opts.shred = false →
      (opts.trash_mode = TrashMode.ALWAYS ∨
        (opts.trash_mode = TrashMode.NORMAL ∧ under = true)) →
      candidateAction opts under = .Trash) ∧
    (opts.shred = false →
      ¬(opts.trash_mode = TrashMode.ALWAYS ∨
        (opts.trash_mode = TrashMode.NORMAL ∧ under = true)) →
      candidateAction opts under = .Rm) ∧
    (opts.shred = false → opts.trash_mode = TrashMode.NEVER →
      candidateAction opts under = .Rm) := by
  refine ⟨?_, ?_, ?_, ?_⟩
  · intro h; simp [candidateAction, h]
  · intro h1 h2; simp [candidateAction, h1, h2]
  · intro h1 h2; simp [candidateAction, h1, h2]
  · intro h1 h2; simp [candidateAction, h1, h2]

/-- Witness for C2 on the spec's own example: same target, three modes. -/
theorem C2_witness :
    candidateAction { shred := true, trash_mode := TrashMode.NEVER } true =
      RoutingDecision.Shred ∧
    candidateAction { trash_mode := TrashMode.NORMAL } true = RoutingDecision.Trash ∧
    candidateAction { trash_mode := TrashMode.NEVER } true = RoutingDecision.Rm :=
  ⟨(C2_routing { shred := true, trash_mode := TrashMode.NEVER } true).1 rfl,
   (C2_routing { trash_mode := TrashMode.NORMAL } true).2.1 rfl (Or.inr ⟨rfl, rfl⟩),
   (C2_routing { trash_mode := TrashMode.NEVER } true).2.2.2 rfl rfl⟩

/-- Claim C10: whenever `help` is set, whatever the other flags,
`run` returns exit code 0, writes exactly the module docstring to the
output stream and writes nothing to the error stream. -/
theorem C10_help (conf : AppConfig) (opts : ExecConfig) (h : opts.help = true) :
    run conf opts = .ok { exitCode := 0, outText := moduleDoc, errText := "" } := by
  simp [run, h]

/-- Witness for C10 with other flags set, as in the repository's
test_help. -/
theorem C10_witness :
    ({ force := true, shred := true, verbose := true, help := true } :
      ExecConfig).help = true ∧
    run {} { force := true, shred := true, verbose := true, help := true } =
      .ok { exitCode := 0, outText := moduleDoc, errText := "" } :=
  ⟨rfl, C10_help {} { force := true, shred := true, verbose := true, help := true } rfl⟩

/-! ## Path-expander lemmas -/

theorem length_dropWhile_le {α : Type} (p : α → Bool) :
    ∀ l : List α, (l.dropWhile p).length ≤ l.length := by
  intro l
  induction l with
  | nil => exact Nat.le_refl _
  | cons a t ih =>
    rw [List.dropWhile_cons]
    by_cases h : p a = true
    · rw [if_pos h]; exact Nat.le_succ_of_le ih
    · rw [if_neg h]

theorem findCloseBrace_length :
    ∀ (l : List Char) (pr : List Char × List Char), findCloseBrace l = some pr →
      pr.2.length < l.length := by
  intro l
  induction l with
  | nil => intro pr h; simp [findCloseBrace] at h
  | cons c rest ih =>
    intro pr h
    by_cases hc : c = rbr
    · rw [findCloseBrace, if_pos hc] at h
      cases h
      simp
    · rw [findCloseBrace, if_neg hc] at h
      cases hr : findCloseBrace rest with
      | none => rw [hr] at h; cases h
      | some pr2 =>
        rw [hr] at h
        cases h
        have := ih pr2 hr
        simp
        omega

theorem findCloseBrace_append (nm suffix : List Char) (h : rbr ∉ nm) :
    findCloseBrace (nm ++ rbr :: suffix) = some (nm, suffix) := by
  induction nm with
  | nil => simp [findCloseBrace]
  | cons c rest ih =>
    have hc : c ≠ rbr := fun e => h (by simp [e])
    have hrest : rbr ∉ rest := fun hm => h (by simp [hm])
    simp [findCloseBrace, hc, ih hrest]

/-- Every scanning step consumes at least one character. -/
theorem expandStep_length (env : List (String × String)) (c : Char) (rest : List Char) :
    (expandStep env (c :: rest)).2.length ≤ rest.length := by
  simp only [expandStep]
  by_cases hd : c = '$'
  · rw [if_pos hd]
    cases rest with
    | nil => simp
    | cons d rest2 =>
      by_cases hlb : d = lbr
      · simp only [if_pos hlb]
        cases hfcb : findCloseBrace rest2 with
        | none => simp
        | some pr =>
          obtain ⟨nm, tail⟩ := pr
          have hlen := findCloseBrace_length rest2 (nm, tail) hfcb
          simp at hlen ⊢
          omega
      · simp only [if_neg hlb]
        by_cases hw : wordChar d = true
        · simp only [if_pos hw]
          have h2 := length_dropWhile_le wordChar rest2
          simp [List.dropWhile_cons, hw]
          omega
        · simp only [if_neg hw]
          exact Nat.le_refl _
  · rw [if_neg hd]

/-- Fuel irrelevance: any fuel at least the input length gives the same
expansion. -/
theorem expandVarsFuel_congr (env : List (String × String)) :
    ∀ (f1 : Nat) (l : List Char) (f2 : Nat), l.length ≤ f1 → l.length ≤ f2 →
    expandVarsFuel env f1 l = expandVarsFuel env f2 l := by
  intro f1
  induction f1 with
  | zero =>
    intro l f2 h1 _
    have hl : l = [] := List.length_eq_zero.mp (Nat.le_zero.mp h1)
    subst hl
    cases f2 <;> rfl
  | succ f ih =>
    intro l f2 h1 h2
    cases l with
    | nil => cases f2 <;> rfl
    | cons c rest =>
      cases f2 with
      | zero => simp at h2
      | succ f2' =>
        have hstep := expandStep_length env c rest
        have hrest1 : rest.length ≤ f := by simpa using h1
        have hrest2 : rest.length ≤ f2' := by simpa using h2
        show (expandStep env (c :: rest)).1 ++
            expandVarsFuel env f (expandStep env (c :: rest)).2 =
          (expandStep env (c :: rest)).1 ++
            expandVarsFuel env f2' (expandStep env (c :: rest)).2
        rw [ih (expandStep env (c :: rest)).2 f2' (by omega) (by omega)]

theorem expandVarsL_cons_step (env : List (String × String)) (c : Char) (rest : List Char) :
    expandVarsL env (c :: rest) = (expandStep env (c :: rest)).1 ++
      expandVarsL env (expandStep env (c :: rest)).2 := by
  have hstep := expandStep_length env c rest
  show (expandStep env (c :: rest)).1 ++
      expandVarsFuel env (rest.length + 1) (expandStep env (c :: rest)).2 = _
  rw [expandVarsFuel_congr env (rest.length + 1) (expandStep env (c :: rest)).2
    ((expandStep env (c :: rest)).2.length + 1) (by omega) (by omega)]
  rfl

theorem expandStep_copy (env : List (String × String)) (c : Char) (rest : List Char)
    (h : c ≠ '$') : expandStep env (c :: rest) = ([c], rest) := by
  simp [expandStep, h]

theorem expandVarsL_copy (env : List (String × String)) (c : Char) (rest : List Char)
    (h : c ≠ '$') : expandVarsL env (c :: rest) = c :: expandVarsL env rest := by
  rw [expandVarsL_cons_step, expandStep_copy env c rest h]
  rfl

theorem expandVarsL_id (env : List (String × String)) :
    ∀ l : List Char, '$' ∉ l → expandVarsL env l = l := by
  intro l
  induction l with
  | nil => intro _; rfl
  | cons c rest ih =>
    intro h
    have hc : c ≠ '$' := fun e => h (by simp [e])
    rw [expandVarsL_copy env c rest hc, ih (fun hm => h (by simp [hm]))]

/-- Whether a list does not begin with a word character (so a name ending
right before it is maximal). -/
def headNotWord : List Char → Bool
  | [] => true
  | c :: _ => !wordChar c

theorem takeWhile_append_word :
    ∀ (xs ys : List Char), (∀ x ∈ xs, wordChar x = true) → headNotWord ys = true →
      (xs ++ ys).takeWhile wordChar = xs ∧ (xs ++ ys).dropWhile wordChar = ys := by
  intro xs
  induction xs with
  | nil =>
    intro ys _ hys
    cases ys with
    | nil => exact ⟨rfl, rfl⟩
    | cons y ys2 =>
      have hy : wordChar y = false := by simpa [headNotWord] using hys
      exact ⟨by simp [List.takeWhile_cons, hy], by simp [List.dropWhile_cons, hy]⟩
  | cons x xs ih =>
    intro ys hxs hys
    have hx : wordChar x = true := hxs x (by simp)
    obtain ⟨h1, h2⟩ := ih ys (fun u hu => hxs u (by simp [hu])) hys
    exact ⟨by simp [List.takeWhile_cons, hx, h1], by simp [List.dropWhile_cons, hx, h2]⟩

/-- A maximal `$NAME` reference at the head of the input: substituted when
`NAME` is in the environment (the value not rescanned), left literal when
it is absent; scanning continues after the reference either way. -/
theorem expandVarsL_name (env : List (String × String)) (nm suffix : List Char)
    (hne : nm ≠ []) (hw : ∀ c ∈ nm, wordChar c = true)
    (hsuf : headNotWord suffix = true) :
    expandVarsL env ('$' :: (nm ++ suffix)) =
      match lookupEnv env (String.mk nm) with
      | some v => v.toList ++ expandVarsL env suffix
      | none => '$' :: (nm ++ expandVarsL env suffix) := by
  cases nm with
  | nil => exact absurd rfl hne
  | cons d nmrest =>
    have hd : wordChar d = true := hw d (by simp)
    have hdne : d ≠ lbr := by
      intro e
      rw [e] at hd
      exact absurd hd (by decide)
    obtain ⟨htake, hdrop⟩ := takeWhile_append_word (d :: nmrest) suffix hw hsuf
    have hstep : expandStep env ('$' :: ((d :: nmrest) ++ suffix)) =
        ((match lookupEnv env (String.mk (d :: nmrest)) with
          | some v => v.toList
          | none => '$' :: (d :: nmrest)), suffix) := by
      simp only [expandStep, List.cons_append, if_pos rfl, if_neg hdne, if_pos hd]
      rw [show d :: (nmrest ++ suffix) = (d :: nmrest) ++ suffix from rfl, htake, hdrop]
      simp
    rw [expandVarsL_cons_step, hstep]
    cases hlk : lookupEnv env (String.mk (d :: nmrest)) <;> simp [hlk]

/-- A brace-delimited reference at the head of the input: substituted when
the name (which may be any text free of closing braces) is in the
environment, left literal when absent. -/
theorem expandVarsL_braces (env : List (String × String)) (nm suffix : List Char)
    (hbr : rbr ∉ nm) :
    expandVarsL env ('$' :: lbr :: (nm ++ rbr :: suffix)) =
      match lookupEnv env (String.mk nm) with
      | some v => v.toList ++ expandVarsL env suffix
      | none => '$' :: lbr :: (nm ++ rbr :: expandVarsL env suffix) := by
  have hstep : expandStep env ('$' :: lbr :: (nm ++ rbr :: suffix)) =
      ((match lookupEnv env (String.mk nm) with
        | some v => v.toList
        | none => '$' :: lbr :: (nm ++ [rbr])), suffix) := by
    simp only [expandStep, if_pos rfl, findCloseBrace_append nm suffix hbr]
    simp
  rw [expandVarsL_cons_step, hstep]
  cases hlk : lookupEnv env (String.mk nm) <;> simp [hlk]

theorem string_mk_toList (s : String) : String.mk s.toList = s := rfl

theorem string_append_mk (s : String) (l : List Char) :
    s ++ String.mk l = String.mk (s.toList ++ l) := rfl

theorem string_append_nil (s : String) : s ++ String.mk [] = s := by
  rw [string_append_mk, List.append_nil, string_mk_toList]

theorem rstripSlashes_eq (home : String) (h : home.toList.getLast? ≠ some '/') :
    rstripSlashes home = home := by
  unfold rstripSlashes
  have hdw : home.toList.reverse.dropWhile (fun c => c = '/') = home.toList.reverse := by
    cases hr : home.toList.reverse with
    | nil => rfl
    | cons c t =>
      have hc : ¬(c = '/') := by
        intro e
        apply h
        rw [← List.head?_reverse, hr, e]
        rfl
      rw [List.dropWhile_cons, if_neg (by simpa using hc)]
  rw [hdw, List.reverse_reverse, string_mk_toList]

/-- `expanduser` on a path whose first slash is at index 1: the tilde is
replaced by `home` stripped of trailing slashes, an empty result becoming
the root. -/
theorem expanduser_tilde (path home : String) (rest : List Char)
    (hp : path.toList = '~' :: rest)
    (hpre : rest.takeWhile (fun c => c ≠ '/') = []) :
    expanduser path home =
      (if rstripSlashes home ++ String.mk (rest.dropWhile (fun c => c ≠ '/')) = ""
       then "/"
       else rstripSlashes home ++ String.mk (rest.dropWhile (fun c => c ≠ '/'))) := by
  unfold expanduser
  rw [hp]
  show (if rest.takeWhile (fun c => c ≠ '/') = [] then
      (let userhome := rstripSlashes home
       let res := userhome ++ String.mk (rest.dropWhile (fun c => c ≠ '/'))
       if res = "" then "/" else res)
    else path) = _
  rw [if_pos hpre]

theorem expandPath_tilde_h (env : List (String × String)) (home : String)
    (hne : home ≠ "") (h : home.toList.getLast? ≠ some '/') :
    expandPath "~" env home = home := by
  have hv : expandvars env "~" = String.mk ['~'] := by
    show String.mk (expandVarsL env "~".toList) = _
    rw [show "~".toList = ['~'] from rfl, expandVarsL_copy env '~' [] (by decide)]
    rfl
  unfold expandPath
  rw [hv, expanduser_tilde (String.mk ['~']) home [] rfl rfl]
  rw [rstripSlashes_eq home h,
    show ([] : List Char).dropWhile (fun c => c ≠ '/') = [] from rfl,
    string_append_nil, if_neg hne]

theorem expandPath_tilde_slash_h (env : List (String × String)) (home : String)
    (rest : List Char) (hd : '$' ∉ rest) (h : home.toList.getLast? ≠ some '/') :
    expandPath (String.mk ('~' :: '/' :: rest)) env home =
      home ++ String.mk ('/' :: rest) := by
  have hnodollar : '$' ∉ ('~' :: '/' :: rest) := by
    intro hm
    rcases List.mem_cons.mp hm with e | hm2
    · exact absurd e (by decide)
    · rcases List.mem_cons.mp hm2 with e | hm3
      · exact absurd e (by decide)
      · exact hd hm3
  have hv : expandvars env (String.mk ('~' :: '/' :: rest)) =
      String.mk ('~' :: '/' :: rest) := by
    show String.mk (expandVarsL env (String.mk ('~' :: '/' :: rest)).toList) = _
    rw [show (String.mk ('~' :: '/' :: rest)).toList = '~' :: '/' :: rest from rfl]
    rw [expandVarsL_id env _ hnodollar]
  have hpre : ('/' :: rest).takeWhile (fun c => c ≠ '/') = [] := by
    rw [List.takeWhile_cons]
    simp
  have hdrop : ('/' :: rest).dropWhile (fun c => c ≠ '/') = '/' :: rest := by
    rw [List.dropWhile_cons]
    simp
  have hne2 : home ++ String.mk ('/' :: rest) ≠ "" := by
    intro e
    have he : (home ++ String.mk ('/' :: rest)).toList = ("" : String).toList := by
      rw [e]
    rw [string_append_mk] at he
    simp at he
  unfold expandPath
  rw [hv, expanduser_tilde (String.mk ('~' :: '/' :: rest)) home ('/' :: rest) rfl hpre]
  rw [rstripSlashes_eq home h, hdrop, if_neg hne2]

/-- Claim C5, as stated, is false on the code: with `PWD` set in the
environment, a home value `/my$PWD/` (which contains a `$NAME` substring
with `NAME` set) is not returned verbatim when `~` is expanded, because
`expanduser` strips trailing slashes from the home value. -/
theorem C5_counterexample :
    expandPath "~" [("PWD", "x")] "/my$PWD/" = "/my$PWD" ∧
      ("/my$PWD" : String) ≠ "/my$PWD/" := by
  decide

/-- Claim C5 (amended): the expansion applied to configured trash paths
substitutes each maximal `$NAME` reference (and each brace-delimited
reference) whose name is in the environment with its value (not
rescanned), leaves references to absent names as literal text, and
replaces a leading bare `~` with the home value verbatim — the latter
provided the home value is nonempty and free of trailing slashes, which
`expanduser` strips. -/
theorem C5_expansion :
    (∀ (env : List (String × String)) (nm suffix : List Char),
      nm ≠ [] → (∀ c ∈ nm, wordChar c = true) → headNotWord suffix = true →
      lookupEnv env (String.mk nm) = none →
      expandvars env (String.mk ('$' :: (nm ++ suffix))) =
        String.mk ('$' :: (nm ++ expandVarsL env suffix))) ∧
    (∀ (env : List (String × String)) (nm suffix : List Char) (v : String),
      nm ≠ [] → (∀ c ∈ nm, wordChar c = true) → headNotWord suffix = true →
      lookupEnv env (String.mk nm) = some v →
      expandvars env (String.mk ('$' :: (nm ++ suffix))) =
        String.mk (v.toList ++ expandVarsL env suffix)) ∧
    (∀ (env : List (String × String)) (nm suffix : List Char),
      rbr ∉ nm → lookupEnv env (String.mk nm) = none →
      expandvars env (String.mk ('$' :: lbr :: (nm ++ rbr :: suffix))) =
        String.mk ('$' :: lbr :: (nm ++ rbr :: expandVarsL env suffix))) ∧
    (∀ (env : List (String × String)) (nm suffix : List Char) (v : String),
      rbr ∉ nm → lookupEnv env (String.mk nm) = some v →
      expandvars env (String.mk ('$' :: lbr :: (nm ++ rbr :: suffix))) =
        String.mk (v.toList ++ expandVarsL env suffix)) ∧
    (∀ (env : List (String × String)) (home : String),
      home ≠ "" → home.toList.getLast? ≠ some '/' →
      expandPath "~" env home = home) ∧
    (∀ (env : List (String × String)) (home : String) (rest : List Char),
      '$' ∉ rest → home.toList.getLast? ≠ some '/' →
      expandPath (String.mk ('~' :: '/' :: rest)) env home =
        home ++ String.mk ('/' :: rest)) := by
  refine ⟨?_, ?_, ?_, ?_, ?_, ?_⟩
  · intro env nm suffix h1 h2 h3 h4
    show String.mk (expandVarsL env (String.mk ('$' :: (nm ++ suffix))).toList) = _
    rw [show (String.mk ('$' :: (nm ++ suffix))).toList = '$' :: (nm ++ suffix) from rfl]
    rw [expandVarsL_name env nm suffix h1 h2 h3, h4]
  · intro env nm suffix v h1 h2 h3 h4
    show String.mk (expandVarsL env (String.mk ('$' :: (nm ++ suffix))).toList) = _
    rw [show (String.mk ('$' :: (nm ++ suffix))).toList = '$' :: (nm ++ suffix) from rfl]
    rw [expandVarsL_name env nm suffix h1 h2 h3, h4]
  · intro env nm suffix h1 h2
    show String.mk
      (expandVarsL env (String.mk ('$' :: lbr :: (nm ++ rbr :: suffix))).toList) = _
    rw [show (String.mk ('$' :: lbr :: (nm ++ rbr :: suffix))).toList =
      '$' :: lbr :: (nm ++ rbr :: suffix) from rfl]
    rw [expandVarsL_braces env nm suffix h1, h2]
  · intro env nm suffix v h1 h2
    show String.mk
      (expandVarsL env (String.mk ('$' :: lbr :: (nm ++ rbr :: suffix))).toList) = _
    rw [show (String.mk ('$' :: lbr :: (nm ++ rbr :: suffix))).toList =
      '$' :: lbr :: (nm ++ rbr :: suffix) from rfl]
    rw [expandVarsL_braces env nm suffix h1, h2]
  · exact fun env home => expandPath_tilde_h env home
  · exact fun env home rest => expandPath_tilde_slash_h env home rest

/-- Witness for C5 at the configuration values of the repository's own
test_load_config, one instance per conjunct. -/
theorem C5_witness :
    expandvars [] (String.mk ('$' :: ("UNSET".toList ++ "/tmp/stuff".toList))) =
      String.mk ('$' :: ("UNSET".toList ++ expandVarsL [] "/tmp/stuff".toList)) ∧
    expandvars [("MY_DIR", "/tmp/trashy/test")]
        (String.mk ('$' :: ("MY_DIR".toList ++ "/directory".toList))) =
      String.mk (("/tmp/trashy/test" : String).toList ++
        expandVarsL [("MY_DIR", "/tmp/trashy/test")] "/directory".toList) ∧
    expandvars [] (String.mk ('$' :: lbr :: ("UNSET".toList ++ rbr :: "/x".toList))) =
      String.mk ('$' :: lbr :: ("UNSET".toList ++ rbr :: expandVarsL [] "/x".toList)) ∧
    expandvars [("SPACES_DIR", "/tmp/trashy/spa ces")]
        (String.mk ('$' :: lbr :: ("SPACES_DIR".toList ++ rbr :: "-here/dir".toList))) =
      String.mk (("/tmp/trashy/spa ces" : String).toList ++
        expandVarsL [("SPACES_DIR", "/tmp/trashy/spa ces")] "-here/dir".toList) ∧
    expandPath "~" [("PWD", "x")] "/tmp/trashy/my$PWD" = "/tmp/trashy/my$PWD" ∧
    expandPath (String.mk ('~' :: '/' :: "docs".toList)) [] "/home/u" =
      "/home/u" ++ String.mk ('/' :: "docs".toList) :=
  ⟨C5_expansion.1 [] "UNSET".toList "/tmp/stuff".toList (by decide) (by decide)
      (by decide) (by decide),
   C5_expansion.2.1 [("MY_DIR", "/tmp/trashy/test")] "MY_DIR".toList
      "/directory".toList "/tmp/trashy/test" (by decide) (by decide) (by decide)
      (by decide),
   C5_expansion.2.2.1 [] "UNSET".toList "/x".toList (by decide) (by decide),
   C5_expansion.2.2.2.1 [("SPACES_DIR", "/tmp/trashy/spa ces")] "SPACES_DIR".toList
      "-here/dir".toList "/tmp/trashy/spa ces" (by decide) (by decide),
   C5_expansion.2.2.2.2.1 [("PWD", "x")] "/tmp/trashy/my$PWD" (by decide) (by decide),
   C5_expansion.2.2.2.2.2 [] "/home/u" "docs".toList (by decide) (by decide)⟩

/-! ## Claim theorems: config merger -/

/-- Claim-side helper for C3 (from the words of the amended claim): the
pairs of every section named `n` of one file, in order. -/
def claimFilePairs (n : String) : Sections → List (String × String)
  | [] => []
  | s :: rest => (if s.1 = n then s.2 else []) ++ claimFilePairs n rest

/-- Claim-side helper for C3: the pairs of every section named `n` across
all parsed files, in file order. -/
def sectPairs (n : String) : List ConfFile → List (String × String)
  | [] => []
  | ConfFile.parsed secs :: rest => claimFilePairs n secs ++ sectPairs n rest
  | _ :: rest => sectPairs n rest

/-- The key-wise union the amended C3 describes: every pair of every
file, in order, assigned into one ordered dict, so that a later pair
overrides the value of a same-named key in place and keys keep their
first-appearance order. -/
def claimSectionUnion (files : List ConfFile) (n : String) : List (String × String) :=
  (sectPairs n files).foldl (fun a kv => setKey a kv.1 kv.2) []

/-- The value of the last pair carrying key `k`. -/
def lastVal : List (String × String) → String → Option String
  | [], _ => none
  | kv :: rest, k =>
    match lastVal rest k with
    | some v => some v
    | none => if kv.1 = k then some kv.2 else none

/-- No parsed file carries a `[DEFAULT]` section. -/
def noDefaultSects : List ConfFile → Bool
  | [] => true
  | ConfFile.parsed secs :: rest =>
    secs.all (fun s => s.1 ≠ "DEFAULT") && noDefaultSects rest
  | _ :: rest => noDefaultSects rest

/-! Lemmas relating the merged parser state to the claim-side union. -/

theorem lookupKey_setKey (a : List (String × String)) (k v k2 : String) :
    lookupKey (setKey a k v) k2 = if k2 = k then some v else lookupKey a k2 := by
  induction a with
  | nil =>
    by_cases h : k2 = k
    · subst h; simp [setKey, lookupKey]
    · have hs : ¬(k = k2) := fun hh => h hh.symm
      simp [setKey, lookupKey, h, hs]
  | cons kv0 tl ih =>
    obtain ⟨k0, v0⟩ := kv0
    by_cases h0 : k0 = k
    · subst h0
      by_cases h2 : k0 = k2
      · subst h2; simp [setKey, lookupKey]
      · have h2s : ¬(k2 = k0) := fun hh => h2 hh.symm
        simp [setKey, lookupKey, h2, h2s]
    · by_cases h2 : k0 = k2
      · subst h2
        simp [setKey, lookupKey, h0]
      · simp [setKey, lookupKey, h0, h2, ih]

theorem lookupKey_foldl_setKey :
    ∀ (pairs a : List (String × String)) (k : String),
      lookupKey (pairs.foldl (fun x kv => setKey x kv.1 kv.2) a) k =
        match lastVal pairs k with
        | some v => some v
        | none => lookupKey a k := by
  intro pairs
  induction pairs with
  | nil => intro a k; simp [lastVal]
  | cons kv tl ih =>
    intro a k
    rw [List.foldl_cons, ih, lastVal]
    cases hlv : lastVal tl k with
    | some v => rfl
    | none =>
      dsimp only
      rw [lookupKey_setKey]
      by_cases h : kv.1 = k
      · subst h; simp
      · have hs : ¬(k = kv.1) := fun hh => h hh.symm
        simp [h, hs]

theorem sectKvs_mergeSection (secs : Sections) (name : String)
    (kvs : List (String × String)) (n : String) :
    sectKvs (mergeSection secs name kvs) n =
      if n = name then
        kvs.foldl (fun a kv => setKey a kv.1 kv.2) (sectKvs secs n)
      else sectKvs secs n := by
  induction secs with
  | nil =>
    by_cases h : n = name
    · subst h; simp [mergeSection, sectKvs]
    · have hs : ¬(name = n) := fun hh => h hh.symm
      simp [mergeSection, sectKvs, h, hs]
  | cons s tl ih =>
    obtain ⟨n0, kvs0⟩ := s
    by_cases h0 : n0 = name
    · subst h0
      by_cases h : n0 = n
      · subst h; simp [mergeSection, sectKvs]
      · have hs : ¬(n = n0) := fun hh => h hh.symm
        simp [mergeSection, sectKvs, h, hs]
    · by_cases h : n0 = n
      · subst h
        have hs : ¬(n0 = name) := h0
        have hs2 : ¬(n0 = name) → True := fun _ => trivial
        simp [mergeSection, sectKvs, h0, fun hh : n0 = name => h0 hh]
      · simp [mergeSection, sectKvs, h0, h, ih]

theorem mergeInto_of_ne (st : ParserState) (s : String × List (String × String))
    (h : ¬(s.1 = "DEFAULT")) :
    mergeInto st s = { st with sections := mergeSection st.sections s.1 s.2 } := by
  simp [mergeInto, h]

theorem foldl_mergeInto :
    ∀ (secs : Sections) (st : ParserState),
      secs.all (fun s => s.1 ≠ "DEFAULT") = true →
      (∀ n, sectKvs (secs.foldl mergeInto st).sections n =
        (claimFilePairs n secs).foldl (fun a kv => setKey a kv.1 kv.2)
          (sectKvs st.sections n)) ∧
      (secs.foldl mergeInto st).defaults = st.defaults := by
  intro secs
  induction secs with
  | nil => intro st _; exact ⟨fun n => rfl, rfl⟩
  | cons s tl ih =>
    intro st hall
    rw [List.all_cons, Bool.and_eq_true] at hall
    have hs : ¬(s.1 = "DEFAULT") := by simpa using hall.1
    obtain ⟨ihs, ihd⟩ := ih (mergeInto st s) hall.2
    constructor
    · intro n
      rw [List.foldl_cons, ihs n, mergeInto_of_ne st s hs]
      dsimp only
      rw [sectKvs_mergeSection, claimFilePairs, List.foldl_append]
      by_cases h : s.1 = n
      · rw [if_pos h, if_pos h.symm]
      · rw [if_neg h, if_neg (fun hh => h hh.symm), List.foldl_nil]
    · rw [List.foldl_cons, ihd, mergeInto_of_ne st s hs]

theorem readFiles_state :
    ∀ (files : List ConfFile) (st st2 : ParserState),
      noDefaultSects files = true →
      readFiles st files = .ok st2 →
      (∀ n, sectKvs st2.sections n =
        (sectPairs n files).foldl (fun a kv => setKey a kv.1 kv.2)
          (sectKvs st.sections n)) ∧
      st2.defaults = st.defaults := by
  intro files
  induction files with
  | nil =>
    intro st st2 _ h
    simp only [readFiles] at h
    injection h with h
    subst h
    exact ⟨fun n => rfl, rfl⟩
  | cons f tl ih =>
    intro st st2 hdef h
    cases f with
    | missing =>
      simp only [readFiles, readConfFile] at h
      exact ih st st2 (by simpa [noDefaultSects] using hdef) h
    | malformed =>
      simp only [readFiles, readConfFile] at h
      exact Except.noConfusion h
    | parsed secs =>
      simp only [readFiles, readConfFile] at h
      rw [noDefaultSects, Bool.and_eq_true] at hdef
      obtain ⟨hm, hd⟩ := foldl_mergeInto secs st hdef.1
      obtain ⟨ihs, ihd⟩ := ih (secs.foldl mergeInto st) st2 hdef.2 h
      refine ⟨fun n => ?_, by rw [ihd, hd]⟩
      rw [ihs n, hm n, sectPairs, List.foldl_append]

theorem readFiles_claimUnion (files : List ConfFile) (st : ParserState) (n : String)
    (hdef : noDefaultSects files = true) (hread : readFiles {} files = .ok st) :
    sectKvs st.sections n = claimSectionUnion files n := by
  have h := (readFiles_state files {} st hdef hread).1 n
  simpa [claimSectionUnion, sectKvs] using h

theorem readFiles_defaults (files : List ConfFile) (st : ParserState)
    (hdef : noDefaultSects files = true) (hread : readFiles {} files = .ok st) :
    st.defaults = [] :=
  (readFiles_state files {} st hdef hread).2

theorem setKey_keys (a : List (String × String)) (k v : String) :
    (setKey a k v).map Prod.fst =
      if k ∈ a.map Prod.fst then a.map Prod.fst else a.map Prod.fst ++ [k] := by
  induction a with
  | nil => simp [setKey]
  | cons kv0 tl ih =>
    obtain ⟨k0, v0⟩ := kv0
    by_cases h : k0 = k
    · subst h; simp [setKey]
    · have hs : ¬(k = k0) := fun hh => h hh.symm
      rw [setKey, if_neg h]
      by_cases hm : k ∈ tl.map Prod.fst
      · simp [hm, ih, hs]
      · simp [hm, ih, hs]

theorem setKey_nodup (a : List (String × String)) (k v : String)
    (h : (a.map Prod.fst).Nodup) : ((setKey a k v).map Prod.fst).Nodup := by
  rw [setKey_keys]
  by_cases hm : k ∈ a.map Prod.fst
  · rwa [if_pos hm]
  · rw [if_neg hm]
    simp [List.nodup_append, h, hm]

theorem foldl_setKey_nodup :
    ∀ (kvs a : List (String × String)), (a.map Prod.fst).Nodup →
      ((kvs.foldl (fun x kv => setKey x kv.1 kv.2) a).map Prod.fst).Nodup := by
  intro kvs
  induction kvs with
  | nil => intro a h; exact h
  | cons kv tl ih => intro a h; exact ih _ (setKey_nodup a kv.1 kv.2 h)

theorem claimSectionUnion_nodup (files : List ConfFile) (n : String) :
    ((claimSectionUnion files n).map Prod.fst).Nodup :=
  foldl_setKey_nodup (sectPairs n files) [] (by simp)

theorem setKey_of_not_mem (a : List (String × String)) (k v : String)
    (h : k ∉ a.map Prod.fst) : setKey a k v = a ++ [(k, v)] := by
  induction a with
  | nil => rfl
  | cons kv0 tl ih =>
    obtain ⟨k0, v0⟩ := kv0
    have h0 : ¬(k0 = k) := by
      intro hh
      exact h (by simp [hh])
    rw [setKey, if_neg h0, ih (fun hm => h (by simp [hm]))]
    rfl

theorem foldl_setKey_eq_append :
    ∀ (kvs pre : List (String × String)),
      ((pre ++ kvs).map Prod.fst).Nodup →
      kvs.foldl (fun a kv => setKey a kv.1 kv.2) pre = pre ++ kvs := by
  intro kvs
  induction kvs with
  | nil => intro pre _; simp
  | cons kv tl ih =>
    intro pre h
    have hk : kv.1 ∉ pre.map Prod.fst := by
      intro hm
      rw [List.map_append] at h
      have hd := (List.nodup_append.mp h).2.2
      exact hd hm (by simp)
    rw [List.foldl_cons]
    rw [setKey_of_not_mem pre kv.1 kv.2 hk]
    have h2 : (((pre ++ [(kv.1, kv.2)]) ++ tl).map Prod.fst).Nodup := by
      have he : (pre ++ [(kv.1, kv.2)]) ++ tl = pre ++ kv :: tl := by
        simp
      rw [he]; exact h
    rw [ih (pre ++ [(kv.1, kv.2)]) h2]
    simp

theorem sectionMap_claimUnion (files : List ConfFile) (st : ParserState) (n : String)
    (hdef : noDefaultSects files = true) (hread : readFiles {} files = .ok st) :
    sectionMap st n = claimSectionUnion files n := by
  unfold sectionMap
  rw [readFiles_claimUnion files st n hdef hread, readFiles_defaults files st hdef hread]
  have h := foldl_setKey_eq_append (claimSectionUnion files n) []
    (by simpa using claimSectionUnion_nodup files n)
  simpa using h

theorem cutoffRaw_eq_lastVal (files : List ConfFile) (st : ParserState)
    (hdef : noDefaultSects files = true) (hread : readFiles {} files = .ok st) :
    cutoffRaw st = lastVal (sectPairs "prompt" files) "cutoff" := by
  unfold cutoffRaw
  rw [readFiles_claimUnion files st "prompt" hdef hread,
      readFiles_defaults files st hdef hread]
  unfold claimSectionUnion
  rw [lookupKey_foldl_setKey]
  cases hlv : lastVal (sectPairs "prompt" files) "cutoff" <;> rfl

theorem sectKvs_nil_of_not_hasSect (secs : Sections) (n : String)
    (h : hasSect secs n = false) : sectKvs secs n = [] := by
  induction secs with
  | nil => rfl
  | cons s tl ih =>
    rw [hasSect, Bool.or_eq_false_iff] at h
    rw [sectKvs, if_neg (by simpa using h.1), ih h.2]

theorem hasSect_of_cutoffRaw_some (st : ParserState) (s : String)
    (hd : st.defaults = []) (h : cutoffRaw st = some s) :
    hasSect st.sections "prompt" = true := by
  cases hs : hasSect st.sections "prompt" with
  | true => rfl
  | false =>
    exfalso
    unfold cutoffRaw at h
    rw [sectKvs_nil_of_not_hasSect st.sections "prompt" hs, hd] at h
    simp [lookupKey] at h

/-! Lemmas on interpolation of percent-free values. -/

theorem interpScanFuel_id (map : List (String × String))
    (recurse : List Char → Except String (List Char)) (fuel : Nat) (l : List Char)
    (h : ('%' : Char) ∉ l) : interpScanFuel map recurse (fuel + 1) l = .ok l := by
  cases l with
  | nil => rfl
  | cons c rest =>
    have hc : ¬(c = '%') := fun hh => h (by rw [hh]; exact List.mem_cons_self '%' rest)
    have htake : (c :: rest).takeWhile (fun x => x ≠ '%') = c :: rest :=
      List.takeWhile_eq_self_iff.mpr
        (fun a ha => by simpa using fun hh : a = '%' => h (hh ▸ ha))
    have hdrop : (c :: rest).dropWhile (fun x => x ≠ '%') = [] :=
      List.dropWhile_eq_nil_iff.mpr
        (fun a ha => by simpa using fun hh : a = '%' => h (hh ▸ ha))
    simp only [interpScanFuel, interpStep, if_neg hc, htake, hdrop]
    simp

theorem interpDepth_succ (map : List (String × String)) (db : Nat) (l : List Char) :
    interpDepth map (db + 1) l = interpScanFuel map (interpDepth map db) (l.length + 1) l :=
  rfl

theorem interpolateValue_id (map : List (String × String)) (v : String)
    (h : ('%' : Char) ∉ v.toList) : interpolateValue map v = .ok v := by
  unfold interpolateValue
  have h10 : (10 : Nat) = 9 + 1 := rfl
  rw [h10, interpDepth_succ,
      interpScanFuel_id map (interpDepth map 9) v.toList.length v.toList h]
  dsimp only
  rw [string_mk_toList]

theorem interpItems_id (d : List (String × String)) :
    ∀ (l : List (String × String)), (∀ kv ∈ l, ('%' : Char) ∉ kv.2.toList) →
      interpItems d l = .ok l := by
  intro l
  induction l with
  | nil => intro _; rfl
  | cons kv tl ih =>
    intro h
    rw [interpItems, interpolateValue_id d kv.2 (h kv (List.mem_cons_self kv tl)),
        ih (fun x hx => h x (List.mem_cons_of_mem kv hx))]

/-! Lemmas on the behaviour of `getCutoff` and `load_app_config`. -/

theorem getCutoff_of_cutoffRaw_none (st : ParserState) (h : cutoffRaw st = none) :
    getCutoff st = .ok none := by
  unfold getCutoff
  by_cases hs : hasSect st.sections "prompt" = true
  · rw [if_pos hs, h]
  · rw [if_neg hs]

theorem getCutoff_some (st : ParserState) (s : String) (n : Int)
    (hsect : hasSect st.sections "prompt" = true)
    (hraw : cutoffRaw st = some s) (hpc : ('%' : Char) ∉ s.toList)
    (hpy : pyInt s = some n) :
    getCutoff st = .ok (some n) := by
  unfold getCutoff
  rw [if_pos hsect, hraw]
  dsimp only
  rw [interpolateValue_id _ s hpc]
  dsimp only
  rw [hpy]

theorem getCutoff_ok_cases (st : ParserState)
    (h : cutoffRaw st = none ∨
      ∃ s, cutoffRaw st = some s ∧ ('%' : Char) ∉ s.toList ∧ (pyInt s).isSome) :
    ∃ copt, getCutoff st = .ok copt := by
  rcases h with h | ⟨s, hs, hpc, hpy⟩
  · exact ⟨none, getCutoff_of_cutoffRaw_none st h⟩
  · cases hps : pyInt s with
    | none => rw [hps] at hpy; simp at hpy
    | some n =>
      cases hsec : hasSect st.sections "prompt" with
      | true => exact ⟨some n, getCutoff_some st s n hsec hs hpc hps⟩
      | false =>
        refine ⟨none, ?_⟩
        unfold getCutoff
        rw [if_neg (by simp [hsec])]

theorem load_app_config_eq (files : List ConfFile) (env : List (String × String))
    (home : String) (st : ParserState) (copt : Option Int)
    (hread : readFiles {} files = .ok st) (hget : getCutoff st = .ok copt) :
    load_app_config files env home =
      if hasSect st.sections "trash_path" then
        match interpItems (sectionMap st "trash_path") (sectionMap st "trash_path") with
        | .error e => .error e
        | .ok items =>
          .ok { cutoff := (match copt with | none => DEFAULT_CUTOFF | some m => m),
                trashy_dirs := items.map (fun kv => expandPath kv.2 env home) }
      else
        .ok { cutoff := (match copt with | none => DEFAULT_CUTOFF | some m => m),
              trashy_dirs := [] } := by
  unfold load_app_config
  rw [hread]
  dsimp only
  simp only [hget]
  cases copt with
  | none => rfl
  | some m => rfl

theorem load_cutoff_val (files : List ConfFile) (env : List (String × String))
    (home : String) (st : ParserState) (copt : Option Int) (c : AppConfig)
    (hread : readFiles {} files = .ok st) (hget : getCutoff st = .ok copt)
    (hc : load_app_config files env home = .ok c) :
    c.cutoff = match copt with | none => DEFAULT_CUTOFF | some m => m := by
  rw [load_app_config_eq files env home st copt hread hget] at hc
  split at hc
  · split at hc
    · exact Except.noConfusion hc
    · injection hc with h
      rw [← h]
  · injection hc with h
    rw [← h]

theorem load_dirs_val (files : List ConfFile) (env : List (String × String))
    (home : String) (st : ParserState) (copt : Option Int)
    (items : List (String × String)) (c : AppConfig)
    (hread : readFiles {} files = .ok st) (hget : getCutoff st = .ok copt)
    (hsect : hasSect st.sections "trash_path" = true)
    (hitems : interpItems (sectionMap st "trash_path") (sectionMap st "trash_path") =
      .ok items)
    (hc : load_app_config files env home = .ok c) :
    c.trashy_dirs = items.map (fun kv => expandPath kv.2 env home) := by
  rw [load_app_config_eq files env home st copt hread hget, if_pos hsect, hitems] at hc
  injection hc with h
  rw [← h]

theorem load_dirs_nil (files : List ConfFile) (env : List (String × String))
    (home : String) (st : ParserState) (copt : Option Int) (c : AppConfig)
    (hread : readFiles {} files = .ok st) (hget : getCutoff st = .ok copt)
    (hsect : hasSect st.sections "trash_path" = false)
    (hc : load_app_config files env home = .ok c) :
    c.trashy_dirs = [] := by
  rw [load_app_config_eq files env home st copt hread hget,
      if_neg (by simp [hsect])] at hc
  injection hc with h
  rw [← h]

theorem load_ok_of (files : List ConfFile) (env : List (String × String))
    (home : String) (st : ParserState) (copt : Option Int)
    (hread : readFiles {} files = .ok st) (hget : getCutoff st = .ok copt)
    (hint : hasSect st.sections "trash_path" = true →
      ∃ items, interpItems (sectionMap st "trash_path") (sectionMap st "trash_path") =
        .ok items) :
    ∃ c, load_app_config files env home = .ok c := by
  rw [load_app_config_eq files env home st copt hread hget]
  by_cases hs : hasSect st.sections "trash_path" = true
  · rw [if_pos hs]
    obtain ⟨items, hi⟩ := hint hs
    rw [hi]
    exact ⟨_, rfl⟩
  · rw [if_neg hs]
    exact ⟨_, rfl⟩

theorem load_getCutoff_ok (files : List ConfFile) (env : List (String × String))
    (home : String) (st : ParserState) (c : AppConfig)
    (hread : readFiles {} files = .ok st)
    (hc : load_app_config files env home = .ok c) :
    ∃ copt, getCutoff st = .ok copt := by
  cases hget : getCutoff st with
  | ok copt => exact ⟨copt, rfl⟩
  | error e =>
    exfalso
    unfold load_app_config at hc
    rw [hread] at hc
    dsimp only at hc
    rw [hget] at hc
    exact Except.noConfusion hc

/-- Claim C3, as stated, is false on the code: the one shared
`ConfigParser` merges same-named keys, so the `home` entry of the first
file (`/dev/null`) is overridden by the second file and does not
contribute; and two keys with the same resolved value (`/x`) are not
collapsed. -/
theorem C3_counterexample :
    load_app_config
      [ConfFile.parsed [("trash_path", [("home", "/dev/null"), ("a", "/x")])],
       ConfFile.parsed [("trash_path", [("home", "~"), ("b", "/x")])]]
      [] "/h" =
      .ok { cutoff := 3, trashy_dirs := ["/h", "/x", "/x"] } ∧
    "/dev/null" ∉ (["/h", "/x", "/x"] : List String) := by
  decide

/-- Claim C3 (amended): for every ordered list of configuration files
holding no `[DEFAULT]` section, the raw effective cutoff is the value
from the last file that defines `prompt.cutoff`; the merged `trash_path`
dict equals the key-wise union of the `[trash_path]` sections of all
files in order — a later file overrides the value of a same-named key,
keys keep their first-appearance order; the loaded cutoff is that last
value whenever it is free of percent signs and parses as an integer; and
the loaded trash-directory list is exactly the independent expansion of
each final value of that union, in key order with duplicate resolved
values not collapsed, whenever the merged values are free of percent
signs (BasicInterpolation rewrites values that contain one). -/
theorem C3_merge (files : List ConfFile) (env : List (String × String))
    (home : String) (st : ParserState)
    (hdef : noDefaultSects files = true)
    (hread : readFiles {} files = .ok st) :
    cutoffRaw st = lastVal (sectPairs "prompt" files) "cutoff" ∧
    sectionMap st "trash_path" = claimSectionUnion files "trash_path" ∧
    (∀ (s : String) (n : Int) (c : AppConfig),
      lastVal (sectPairs "prompt" files) "cutoff" = some s →
      ('%' : Char) ∉ s.toList → pyInt s = some n →
      load_app_config files env home = .ok c → c.cutoff = n) ∧
    ((∀ kv ∈ claimSectionUnion files "trash_path", ('%' : Char) ∉ kv.2.toList) →
      ∀ (c : AppConfig), load_app_config files env home = .ok c →
        c.trashy_dirs = (claimSectionUnion files "trash_path").map
          (fun kv => expandPath kv.2 env home)) := by
  have hraw := cutoffRaw_eq_lastVal files st hdef hread
  have hmapT := sectionMap_claimUnion files st "trash_path" hdef hread
  have hdf := readFiles_defaults files st hdef hread
  refine ⟨hraw, hmapT, ?_, ?_⟩
  · intro s n c hlast hpc hpy hc
    have hrs : cutoffRaw st = some s := by rw [hraw, hlast]
    have hsec := hasSect_of_cutoffRaw_some st s hdf hrs
    have hget := getCutoff_some st s n hsec hrs hpc hpy
    exact load_cutoff_val files env home st (some n) c hread hget hc
  · intro hfree c hc
    obtain ⟨copt, hget⟩ := load_getCutoff_ok files env home st c hread hc
    by_cases hs : hasSect st.sections "trash_path" = true
    · have hitems : interpItems (sectionMap st "trash_path")
          (sectionMap st "trash_path") = .ok (claimSectionUnion files "trash_path") := by
        rw [hmapT]
        exact interpItems_id _ _ hfree
      exact load_dirs_val files env home st copt
        (claimSectionUnion files "trash_path") c hread hget hs hitems hc
    · have hsf : hasSect st.sections "trash_path" = false := by
        simpa using hs
      have hnil : sectKvs st.sections "trash_path" = [] :=
        sectKvs_nil_of_not_hasSect st.sections "trash_path" hsf
      have hun : claimSectionUnion files "trash_path" = [] := by
        rw [← readFiles_claimUnion files st "trash_path" hdef hread, hnil]
      rw [hun]
      simpa using load_dirs_nil files env home st copt c hread hget hsf hc

/-- Witness for C3 at two files exercising a cutoff override, a key
override across files and two distinct keys with the same resolved
value. -/
theorem C3_witness :
    ({ cutoff := 5, trashy_dirs := ["/h", "/x", "/x"] } : AppConfig).cutoff = 5 ∧
    ({ cutoff := 5, trashy_dirs := ["/h", "/x", "/x"] } : AppConfig).trashy_dirs =
      (claimSectionUnion
        [ConfFile.parsed [("prompt", [("cutoff", "9")]),
                          ("trash_path", [("home", "/dev/null"), ("a", "/x")])],
         ConfFile.parsed [("trash_path", [("home", "~"), ("b", "/x")]),
                          ("prompt", [("cutoff", "5")])]] "trash_path").map
        (fun kv => expandPath kv.2 [] "/h") :=
  ⟨(C3_merge
      [ConfFile.parsed [("prompt", [("cutoff", "9")]),
                        ("trash_path", [("home", "/dev/null"), ("a", "/x")])],
       ConfFile.parsed [("trash_path", [("home", "~"), ("b", "/x")]),
                        ("prompt", [("cutoff", "5")])]] [] "/h"
      ⟨[], [("prompt", [("cutoff", "5")]),
            ("trash_path", [("home", "~"), ("a", "/x"), ("b", "/x")])]⟩
      (by decide) (by decide)).2.2.1 "5" 5
      { cutoff := 5, trashy_dirs := ["/h", "/x", "/x"] }
      (by decide) (by decide) (by decide) (by decide),
   (C3_merge
      [ConfFile.parsed [("prompt", [("cutoff", "9")]),
                        ("trash_path", [("home", "/dev/null"), ("a", "/x")])],
       ConfFile.parsed [("trash_path", [("home", "~"), ("b", "/x")]),
                        ("prompt", [("cutoff", "5")])]] [] "/h"
      ⟨[], [("prompt", [("cutoff", "5")]),
            ("trash_path", [("home", "~"), ("a", "/x"), ("b", "/x")])]⟩
      (by decide) (by decide)).2.2.2 (by decide)
      { cutoff := 5, trashy_dirs := ["/h", "/x", "/x"] } (by decide)⟩

/-- Claim C7, as stated, is false on the code: a `prompt.cutoff` value
that is not a valid integer makes `parser.getint` raise `ValueError`; a
file `ConfigParser` cannot parse makes `read` raise; and a `trash_path`
value holding a stray percent sign makes the `BasicInterpolation` run by
`parser.items` raise `InterpolationSyntaxError` — `load_app_config`
propagates all three instead of degrading silently. -/
theorem C7_counterexample :
    load_app_config [ConfFile.parsed [("prompt", [("cutoff", "abc")])]] [] "/h" =
      .error "ValueError" ∧
    load_app_config [ConfFile.malformed] [] "/h" = .error "configparser.Error" ∧
    load_app_config [ConfFile.parsed [("trash_path", [("k", "/data/50%x")])]] [] "/h" =
      .error "InterpolationSyntaxError" := by
  decide

theorem readFiles_ok :
    ∀ (files : List ConfFile) (st : ParserState), ConfFile.malformed ∉ files →
      ∃ m, readFiles st files = .ok m := by
  intro files
  induction files with
  | nil => exact fun st _ => ⟨st, rfl⟩
  | cons f rest ih =>
    intro st h
    cases f with
    | missing =>
      obtain ⟨m, hm⟩ := ih st (fun hmm => h (by simp [hmm]))
      exact ⟨m, by simp [readFiles, readConfFile, hm]⟩
    | malformed => exact absurd (by simp) h
    | parsed secs =>
      obtain ⟨m, hm⟩ := ih (secs.foldl mergeInto st) (fun hmm => h (by simp [hmm]))
      exact ⟨m, by simp [readFiles, readConfFile, hm]⟩

/-- Claim C7 (amended): a missing file is silently skipped, and an absent
cutoff — no `prompt.cutoff` stored in the section or in the defaults —
leaves the loaded cutoff at its default; but `load_app_config` is not
total: a malformed file raises a `configparser` error, a non-integer
`prompt.cutoff` raises `ValueError`, and a stored value holding a stray
percent sign makes `BasicInterpolation` raise. When no file is malformed,
the effective cutoff value is absent or percent-free and integral, and
the effective `trash_path` values (defaults included) are percent-free,
loading succeeds. -/
theorem C7_best_effort :
    (∀ (files : List ConfFile) (env : List (String × String)) (home : String),
      load_app_config (ConfFile.missing :: files) env home =
        load_app_config files env home) ∧
    (∀ (files : List ConfFile) (env : List (String × String)) (home : String)
        (st : ParserState) (c : AppConfig),
      readFiles {} files = .ok st → cutoffRaw st = none →
      load_app_config files env home = .ok c → c.cutoff = DEFAULT_CUTOFF) ∧
    (∀ (files : List ConfFile) (env : List (String × String)) (home : String),
      ConfFile.malformed ∉ files →
      (∀ st : ParserState, readFiles {} files = .ok st →
        (cutoffRaw st = none ∨
          ∃ s, cutoffRaw st = some s ∧ ('%' : Char) ∉ s.toList ∧ (pyInt s).isSome) ∧
        (∀ kv ∈ sectionMap st "trash_path", ('%' : Char) ∉ kv.2.toList)) →
      ∃ c, load_app_config files env home = .ok c) := by
  refine ⟨?_, ?_, ?_⟩
  · intro files env home
    rfl
  · intro files env home st c hread hraw hc
    have hget := getCutoff_of_cutoffRaw_none st hraw
    exact load_cutoff_val files env home st none c hread hget hc
  · intro files env home hmal hcond
    obtain ⟨st, hread⟩ := readFiles_ok files {} hmal
    obtain ⟨hcut, hfree⟩ := hcond st hread
    obtain ⟨copt, hget⟩ := getCutoff_ok_cases st hcut
    exact load_ok_of files env home st copt hread hget
      (fun _ => ⟨sectionMap st "trash_path", interpItems_id _ _ hfree⟩)

/-- Witness for C7: a missing file before a parsed file is skipped; a
configuration with no cutoff keeps the default; a well-formed
configuration loads successfully. -/
theorem C7_witness :
    load_app_config [ConfFile.missing, ConfFile.parsed []] [] "/h" =
      load_app_config [ConfFile.parsed []] [] "/h" ∧
    ({ cutoff := DEFAULT_CUTOFF, trashy_dirs := ["/p"] } : AppConfig).cutoff =
      DEFAULT_CUTOFF ∧
    (∃ c, load_app_config
        [ConfFile.parsed [("prompt", [("cutoff", "7")]), ("trash_path", [("k", "/p")])]]
        [] "/h" = .ok c) :=
  ⟨C7_best_effort.1 [ConfFile.parsed []] [] "/h",
   C7_best_effort.2.1 [ConfFile.parsed [("trash_path", [("k", "/p")])]] [] "/h"
     ⟨[], [("trash_path", [("k", "/p")])]⟩
     { cutoff := DEFAULT_CUTOFF, trashy_dirs := ["/p"] }
     (by decide) (by decide) (by decide),
   C7_best_effort.2.2
     [ConfFile.parsed [("prompt", [("cutoff", "7")]), ("trash_path", [("k", "/p")])]]
     [] "/h" (by decide)
     (fun st hst => by
       have h0 : readFiles {}
           [ConfFile.parsed [("prompt", [("cutoff", "7")]),
                             ("trash_path", [("k", "/p")])]] =
           .ok ⟨[], [("prompt", [("cutoff", "7")]), ("trash_path", [("k", "/p")])]⟩ := by
         decide
       rw [h0] at hst
       injection hst with h
       subst h
       exact ⟨Or.inr ⟨"7", by decide, by decide, by decide⟩, by decide⟩)⟩

/-- Claim C9, as stated, is false on the code: a configured cutoff of `-1`
is accepted, violating the claimed `cutoff ≥ 0` invariant, and an empty
configured path expands to the empty string, violating the claimed
non-emptiness of the trash-directory entries. -/
theorem C9_counterexample :
    load_app_config
      [ConfFile.parsed [("prompt", [("cutoff", "-1")]), ("trash_path", [("k", "")])]]
      [] "/h" = .ok { cutoff := -1, trashy_dirs := [""] } ∧
    ¬((-1 : Int) ≥ 0) ∧ "" ∈ ([""] : List String) := by
  decide

/-- Claim C9 (amended): the policy produced by `load_app_config` has
cutoff `DEFAULT_CUTOFF = 3` whenever no file defines one (in particular
on no input), and every trash-directory entry is the best-effort
expansion of some interpolated configured `trash_path` value — the
defaults dict updated with the section, each value first rewritten by
`BasicInterpolation`, then expanded.  The claimed validation does not
exist: entries may be empty strings and a negative cutoff is accepted. -/
theorem C9_invariant :
    load_app_config [] [] "" = .ok { cutoff := DEFAULT_CUTOFF, trashy_dirs := [] } ∧
    (∀ (files : List ConfFile) (env : List (String × String)) (home : String)
        (st : ParserState) (c : AppConfig),
      noDefaultSects files = true →
      readFiles {} files = .ok st →
      lastVal (sectPairs "prompt" files) "cutoff" = none →
      load_app_config files env home = .ok c → c.cutoff = DEFAULT_CUTOFF) ∧
    (∀ (files : List ConfFile) (env : List (String × String)) (home : String)
        (st : ParserState) (c : AppConfig) (d : String),
      readFiles {} files = .ok st →
      load_app_config files env home = .ok c →
      d ∈ c.trashy_dirs →
      ∃ items, interpItems (sectionMap st "trash_path") (sectionMap st "trash_path") =
          .ok items ∧ ∃ kv ∈ items, d = expandPath kv.2 env home) := by
  refine ⟨by decide, ?_, ?_⟩
  · intro files env home st c hdef hread hlast hc
    have hraw : cutoffRaw st = none := by
      rw [cutoffRaw_eq_lastVal files st hdef hread, hlast]
    have hget := getCutoff_of_cutoffRaw_none st hraw
    exact load_cutoff_val files env home st none c hread hget hc
  · intro files env home st c d hread hc hd
    obtain ⟨copt, hget⟩ := load_getCutoff_ok files env home st c hread hc
    by_cases hs : hasSect st.sections "trash_path" = true
    · cases hitems : interpItems (sectionMap st "trash_path")
          (sectionMap st "trash_path") with
      | error e =>
        exfalso
        rw [load_app_config_eq files env home st copt hread hget,
            if_pos hs, hitems] at hc
        exact Except.noConfusion hc
      | ok items =>
        refine ⟨items, rfl, ?_⟩
        have hdirs := load_dirs_val files env home st copt items c
          hread hget hs hitems hc
        rw [hdirs] at hd
        obtain ⟨kv, hkv, he⟩ := List.mem_map.mp hd
        exact ⟨kv, hkv, he.symm⟩
    · exfalso
      have hsf : hasSect st.sections "trash_path" = false := by simpa using hs
      have hdirs := load_dirs_nil files env home st copt c hread hget hsf hc
      rw [hdirs] at hd
      simp at hd

/-- Witness for C9: the default-cutoff case and the membership case at a
one-entry configuration. -/
theorem C9_witness :
    ({ cutoff := DEFAULT_CUTOFF, trashy_dirs := ["/p"] } : AppConfig).cutoff =
      DEFAULT_CUTOFF ∧
    (∃ items,
      interpItems
        (sectionMap ⟨[], [("trash_path", [("k", "/p")])]⟩ "trash_path")
        (sectionMap ⟨[], [("trash_path", [("k", "/p")])]⟩ "trash_path") = .ok items ∧
      ∃ kv ∈ items, "/p" = expandPath kv.2 [] "/h") :=
  ⟨C9_invariant.2.1 [ConfFile.parsed [("trash_path", [("k", "/p")])]] [] "/h"
     ⟨[], [("trash_path", [("k", "/p")])]⟩
     { cutoff := DEFAULT_CUTOFF, trashy_dirs := ["/p"] }
     (by decide) (by decide) (by decide) (by decide),
   C9_invariant.2.2 [ConfFile.parsed [("trash_path", [("k", "/p")])]] [] "/h"
     ⟨[], [("trash_path", [("k", "/p")])]⟩
     { cutoff := DEFAULT_CUTOFF, trashy_dirs := ["/p"] } "/p"
     (by decide) (by decide) (by decide)⟩
